import Mathlib

/-!
Verification of the candidate-disambiguation and field-normalization core of
the AutomatisierungBP repository (PDFScanner.py, src/bpauto/providers/northdata.py,
src/bpauto/excel_io.py) against its natural-language specification.

Python strings are shallowly embedded as `List Char` over the ASCII + German
(ÄÖÜäöüß, NBSP) character repertoire that the register documents use; regular
expressions are embedded by their deterministic matching semantics on that
repertoire (each embedding is documented at its definition).  Machine floats
(the NorthData confidence scores) are embedded as rationals.
-/

/-- Python `str`, embedded as a list of characters. -/
abbrev Str := List Char

/-- Whitespace class: Python's `\s` / `str.strip()` on the ASCII repertoire
(space, tab, newline, vertical tab, form feed, carriage return). -/
def pyIsSpace (c : Char) : Bool :=
  c.toNat = 32 || c.toNat = 9 || c.toNat = 10 || c.toNat = 11 || c.toNat = 12 || c.toNat = 13

/-- Decimal digit class: Python's `\d` / `str.isdigit` on ASCII. -/
def isDigitC (c : Char) : Bool := 48 ≤ c.toNat && c.toNat ≤ 57

/-- ASCII letter class `[A-Za-z]`. -/
def isAlphaC (c : Char) : Bool :=
  (65 ≤ c.toNat && c.toNat ≤ 90) || (97 ≤ c.toNat && c.toNat ≤ 122)

/-- `str.strip()`: drop whitespace from both ends. -/
def pyStrip (s : Str) : Str :=
  ((s.dropWhile pyIsSpace).reverse.dropWhile pyIsSpace).reverse

/-- `str.split(sep)` for a one-character separator: `"".split(sep) = [""]`. -/
def splitOnChar (sep : Char) : Str → List Str
  | [] => [[]]
  | c :: rest =>
    let r := splitOnChar sep rest
    if c = sep then [] :: r
    else
      match r with
      | h :: t => (c :: h) :: t
      | [] => [[c]]

/-- `str.split()` with no separator: split on whitespace runs, dropping empties. -/
def pySplitWs (s : Str) : List Str :=
  (s.foldr
    (fun c acc =>
      if pyIsSpace c then [] :: acc
      else
        match acc with
        | [] => [[c]]
        | w :: ws => (c :: w) :: ws)
    []).filter (fun w => w ≠ [])

/-- Python string join of `parts` with separator `sep`. -/
def joinWith (sep : Str) : List Str → Str
  | [] => []
  | [x] => x
  | x :: xs => x ++ sep ++ joinWith sep xs

/-- Python negative indexing `l[-k]`: `none` models the `IndexError`. -/
def pyNegGet (l : List α) (k : Nat) : Option α :=
  if 1 ≤ k ∧ k ≤ l.length then l[l.length - k]? else none

/-- Python `enumerate`, starting at `n`. -/
def pyEnumFrom (n : Nat) : List α → List (Nat × α)
  | [] => []
  | x :: xs => (n, x) :: pyEnumFrom (n + 1) xs

/-- Exceptions the embedded code can raise. -/
inductive PyErr
  | indexError
  | valueError
deriving DecidableEq

/-- Digit run of Python `int()`: digits with single underscores strictly
between digits (`"6_01"` parses, `"_6"`/`"6_"`/`"6__1"` do not). -/
def parseDigitsUGo (acc : Nat) : Str → Option Nat
  | [] => some acc
  | '_' :: c :: rest =>
    if isDigitC c then parseDigitsUGo (acc * 10 + (c.toNat - 48)) rest else none
  | '_' :: [] => none
  | c :: rest =>
    if isDigitC c then parseDigitsUGo (acc * 10 + (c.toNat - 48)) rest else none

def parseDigitsU : Str → Option Nat
  | [] => none
  | c :: rest => if isDigitC c then parseDigitsUGo (c.toNat - 48) rest else none

/-- Python `int(s)`: strip whitespace, optional sign, digit run;
failure models the `ValueError`. -/
def pyInt (s : Str) : Except PyErr Int :=
  let t := pyStrip s
  match t with
  | '+' :: rest =>
    match parseDigitsU rest with
    | some n => .ok (Int.ofNat n)
    | none => .error .valueError
  | '-' :: rest =>
    match parseDigitsU rest with
    | some n => .ok (-(Int.ofNat n))
    | none => .error .valueError
  | rest =>
    match parseDigitsU rest with
    | some n => .ok (Int.ofNat n)
    | none => .error .valueError

/-! ## PDFScanner.py: helpers -/

/-- `replace_umlauts`'s first step: `text.replace("STR.", "STRASSE")`,
scanning left to right over non-overlapping occurrences. -/
def replaceStrDot : Str → Str
  | 'S' :: 'T' :: 'R' :: '.' :: rest =>
    'S' :: 'T' :: 'R' :: 'A' :: 'S' :: 'S' :: 'E' :: replaceStrDot rest
  | c :: rest => c :: replaceStrDot rest
  | [] => []

/-- `text.replace(a, rep)` for a one-character pattern. -/
def replaceChar (a : Char) (rep : Str) (s : Str) : Str :=
  (s.map (fun c => if c = a then rep else [c])).flatten

/-- `replace_umlauts` (PDFScanner.py:11): the replacements are applied in the
dict's insertion order `STR.`, `Ö`, `Ä`, `Ü`, `ß`. -/
def replace_umlauts (s : Str) : Str :=
  replaceChar 'ß' ['S', 'S']
    (replaceChar 'Ü' ['U', 'E']
      (replaceChar 'Ä' ['A', 'E']
        (replaceChar 'Ö' ['O', 'E'] (replaceStrDot s))))

/-- `str.upper()` of one character on the embedded repertoire
(`ß.upper() = "SS"`). -/
def pyUpperChar (c : Char) : Str :=
  if c = 'ß' then ['S', 'S']
  else if 97 ≤ c.toNat ∧ c.toNat ≤ 122 then [Char.ofNat (c.toNat - 32)]
  else if c = 'ä' then ['Ä'] else if c = 'ö' then ['Ö'] else if c = 'ü' then ['Ü']
  else [c]

/-- `str.upper()` on the embedded repertoire. -/
def pyUpper (s : Str) : Str := (s.map pyUpperChar).flatten

/-- `str.casefold()` of one character (`ß.casefold() = "ss"`). -/
def pyCasefoldChar (c : Char) : Str :=
  if c = 'ß' then ['s', 's']
  else if 65 ≤ c.toNat ∧ c.toNat ≤ 90 then [Char.ofNat (c.toNat + 32)]
  else if c = 'Ä' then ['ä'] else if c = 'Ö' then ['ö'] else if c = 'Ü' then ['ü']
  else [c]

/-- `str.casefold()` on the embedded repertoire. -/
def pyCasefold (s : Str) : Str := (s.map pyCasefoldChar).flatten

/-! ## PDFScanner.py: `split_german_address` -/

/-- `re.fullmatch(r"\d+\s+[A-Za-z]", house)`: the pattern is deterministic
(a nonempty digit run, a nonempty whitespace run, one letter, end). -/
def fullmatchDigitsWsLetter (s : Str) : Bool :=
  let ds := s.takeWhile isDigitC
  let rest := s.drop ds.length
  let ws := rest.takeWhile pyIsSpace
  let rest2 := rest.drop ws.length
  ds ≠ [] && ws ≠ [] &&
    (match rest2 with
     | [c] => isAlphaC c
     | _ => false)

/-- Semantics of `\s+(.+)` at the start of `rest` (`.` does not match `\n`):
the whitespace run is taken greedily; when nothing follows it, the engine
backtracks to let `(.+)` start at the last non-newline whitespace character,
which must not be the first one.  Returns group 2. -/
def matchWsThenAny (rest : Str) : Option Str :=
  let ws := rest.takeWhile pyIsSpace
  let tail := rest.drop ws.length
  if ws = [] then none
  else if tail ≠ [] then some (tail.takeWhile (fun c => c ≠ '\n'))
  else
    match ws.reverse.dropWhile (fun c => c = '\n') with
    | a :: _ :: _ => some [a]
    | _ => none

/-- `re.match(r"\s*(\d{k})\s+(.+)", s)` for a fixed digit count `k`:
leading whitespace is skipped (deterministically: `\s*` cannot trade
characters with `\d`), then exactly `k` digits, then `\s+(.+)`.
Returns (group 1, group 2). -/
def reMatchPlzCity (k : Nat) (s : Str) : Option (Str × Str) :=
  let t := s.dropWhile pyIsSpace
  let ds := t.take k
  if ds.length = k && ds.all isDigitC then
    match matchWsThenAny (t.drop k) with
    | some g => some (ds, g)
    | none => none
  else none

/-- PDFScanner.py:55-57: try the 5-digit pattern, then fall back to
`\d{4,5}` (which, by greedy matching, succeeds with 4 digits exactly when the
5-digit attempt fails at the digit-count stage). -/
def rePlzCity (right : Str) : Option (Str × Str) :=
  match reMatchPlzCity 5 right with
  | some m => some m
  | none => reMatchPlzCity 4 right

/-- Result record of `split_german_address` (the Python dict
`{street, house_number, postal_code, city}`). -/
structure NormalizedAddress where
  street : Str
  house_number : Str
  postal_code : Str
  city : Str
deriving DecidableEq

/-- PDFScanner.py:31-38: split at the first comma (`addr.split(",", 1)`), no
comma meaning an empty right part. -/
def addrPair (addr : Str) : Str × Str :=
  if addr.contains ',' then
    (addr.takeWhile (fun c => c ≠ ','), (addr.dropWhile (fun c => c ≠ ',')).tail)
  else (addr, ([] : Str))

/-- The stripped left part (street + house number). -/
def addrLeft (addr : Str) : Str := pyStrip (addrPair addr).1

/-- The stripped right part (postal code + city). -/
def addrRight (addr : Str) : Str := pyStrip (addrPair addr).2

/-- PDFScanner.py:41-47: split the left part at the first digit
(`re.search(r"\d", left)` matches at the length of the digit-free prefix);
without a digit the whole left part is the street. -/
def streetHouse (left : Str) : Str × Str :=
  if left.any isDigitC then
    (pyStrip (left.take (left.takeWhile (fun c => !isDigitC c)).length),
     pyStrip (left.drop (left.takeWhile (fun c => !isDigitC c)).length))
  else (left, ([] : Str))

/-- PDFScanner.py:50-51: `house.replace(" ", "")` when the house number fully
matches `\d+\s+[A-Za-z]`. -/
def houseNorm (h0 : Str) : Str :=
  if fullmatchDigitsWsLetter h0 then h0.filter (fun c => c ≠ ' ') else h0

/-- `split_german_address` (PDFScanner.py:24): split at the first comma,
split the left part at the first digit, normalize the house number, and
parse `postal code + city` out of the right part. -/
def split_german_address (addr : Str) : NormalizedAddress :=
  match rePlzCity (addrRight addr) with
  | some m =>
    { street := (streetHouse (addrLeft addr)).1,
      house_number := houseNorm (streetHouse (addrLeft addr)).2,
      postal_code := m.1, city := pyStrip m.2 }
  | none =>
    { street := (streetHouse (addrLeft addr)).1,
      house_number := houseNorm (streetHouse (addrLeft addr)).2,
      postal_code := [], city := addrRight addr }

/-! ## PDFScanner.py: `normalize_text`

`unicodedata.normalize("NFKC", s)` is the identity on the embedded
(already-composed) character repertoire and is modelled as such. -/

/-- `s.replace(" ", " ")`. -/
def replaceNbsp (s : Str) : Str := s.map (fun c => if c.toNat = 160 then ' ' else c)

/-- `s.replace("\r\n", "\n")`, scanning left to right. -/
def replaceCRLF : Str → Str
  | '\r' :: '\n' :: rest => '\n' :: replaceCRLF rest
  | c :: rest => c :: replaceCRLF rest
  | [] => []

/-- `s.replace("\r", "\n")`. -/
def replaceCR (s : Str) : Str := s.map (fun c => if c = '\r' then '\n' else c)

/-- Python's `\w` on the embedded repertoire (letters, digits, underscore,
German letters). -/
def isWordCharB (c : Char) : Bool :=
  isAlphaC c || isDigitC c || c = '_' ||
  c = 'Ä' || c = 'Ö' || c = 'Ü' || c = 'ä' || c = 'ö' || c = 'ü' || c = 'ß'

/-- `re.sub(r"-\n(?=\w)", "", s)`: delete each `-\n` that is directly followed
by a word character; scanning resumes at that word character. -/
def removeHyphenBreaks : Str → Str
  | '-' :: '\n' :: c :: rest =>
    if isWordCharB c then removeHyphenBreaks (c :: rest)
    else '-' :: removeHyphenBreaks ('\n' :: c :: rest)
  | c :: rest => c :: removeHyphenBreaks rest
  | [] => []

/-- `re.sub(r"[ \t]+", " ", s)`: the flag records whether the previous
character belonged to a space/tab run already replaced by one space. -/
def collapseSpacesGo : Bool → Str → Str
  | _, [] => []
  | inRun, c :: rest =>
    if c = ' ' ∨ c = '\t' then
      if inRun then collapseSpacesGo true rest
      else ' ' :: collapseSpacesGo true rest
    else c :: collapseSpacesGo false rest

def collapseSpaces (s : Str) : Str := collapseSpacesGo false s

/-- `normalize_text` (PDFScanner.py:74). -/
def normalize_text (s : Str) : Str :=
  if s = [] then []
  else collapseSpaces (removeHyphenBreaks (replaceCR (replaceCRLF (replaceNbsp s))))

/-! ## PDFScanner.py: the two extractors -/

/-- Dict returned by the extractors: keys in insertion order (all keys that
arise are distinct). -/
abbrev Dict := List (Str × Str)

/-- Assoc lookup in an extractor dict. -/
def dictGet (d : Dict) (k : Str) : Option Str :=
  match d.find? (fun p => p.1 = k) with
  | some p => some p.2
  | none => none

/-- Keep `[A-Za-zÄÖÜäöü]` and uppercase, i.e.
`re.sub(r"[^A-Za-zÄÖÜäöü]", "", w).upper()` (on the retained class,
`upper` is one-to-one: `äöü → ÄÖÜ`, `a-z → A-Z`). -/
def keepLettersUpper (s : Str) : Str :=
  ((s.filter (fun c =>
      isAlphaC c || c = 'Ä' || c = 'Ö' || c = 'Ü' || c = 'ä' || c = 'ö' || c = 'ü')).map
    pyUpperChar).flatten

/-- Case-insensitive literal match: consume `pat` (given casefolded) from the
front of `s` and return the rest. -/
def ciLiteral : Str → Str → Option Str
  | [], s => some s
  | _ :: _, [] => none
  | p :: ps, c :: cs => if pyCasefold [c] = [p] then ciLiteral ps cs else none

/-- Semantics of `\s*(.+)` at the start of `rest` (`.` does not match `\n`,
but the greedy `\s*` may cross line breaks): skip the maximal whitespace run;
if something follows, the group runs from there to the next newline; if the
whole rest is whitespace, backtracking lets the group start at its last
non-newline character.  Returns the group. -/
def matchWsStarThenAny (rest : Str) : Option Str :=
  let tail := rest.dropWhile pyIsSpace
  if tail ≠ [] then some (tail.takeWhile (fun c => c ≠ '\n'))
  else
    match rest.reverse.dropWhile (fun c => c = '\n') with
    | a :: _ => some [a]
    | [] => none

/-- Attempt of `FIRMA_LINE = r"\b2\.\s*a\)\s*Firma:\s*(.+)" (IGNORECASE)`
at the start of `s` (the `\b` before the digit `2` is checked by the caller):
`2.`, optional whitespace, `a)`, optional whitespace, `Firma:`, then
`\s*(.+)`.  Returns group 1. -/
def tryFirma (s : Str) : Option Str :=
  match s with
  | '2' :: '.' :: rest =>
    (match rest.dropWhile pyIsSpace with
     | a :: ')' :: rest2 =>
       if a = 'a' ∨ a = 'A' then
         match ciLiteral ("firma:".data) (rest2.dropWhile pyIsSpace) with
         | some rest3 => matchWsStarThenAny rest3
         | none => none
       else none
     | _ => none)
  | _ => none

/-- `FIRMA_LINE.search(text)` (PDFScanner.py:85,112): leftmost match; `prev`
is the character before the current position, for the `\b` test (`2` is a
word character, so the boundary holds iff `prev` is absent or not a word
character). -/
def searchFirmaGo (prev : Option Char) : Str → Option Str
  | [] => none
  | c :: rest =>
    let boundary : Bool := match prev with | none => true | some p => !isWordCharB p
    match (if c = '2' && boundary then tryFirma (c :: rest) else none) with
    | some g => some g
    | none => searchFirmaGo (some c) rest

def searchFirma (s : Str) : Option Str := searchFirmaGo none s

/-- Attempt of `GESCH_ADDR = r"Gesch[aä]ftsanschrift:\s*(.+)" (IGNORECASE)`
at the start of `s`.  Returns group 1. -/
def tryGesch (s : Str) : Option Str :=
  match ciLiteral ("gesch".data) s with
  | some r1 =>
    (match r1 with
     | c :: r2 =>
       if pyCasefold [c] = ['a'] ∨ pyCasefold [c] = ['ä'] then
         match ciLiteral ("ftsanschrift:".data) r2 with
         | some r3 => matchWsStarThenAny r3
         | none => none
       else none
     | [] => none)
  | none => none

/-- `GESCH_ADDR.search(text)`: leftmost match. -/
def searchGesch : Str → Option Str
  | [] => none
  | c :: rest =>
    match tryGesch (c :: rest) with
    | some g => some g
    | none => searchGesch rest

/-- `re.search(r"^\s*2\.\s*a\)", ln, IGNORECASE)` viewed as a predicate
(the `^` anchors the match at the start). -/
def isMarker2a (ln : Str) : Bool :=
  match ln.dropWhile pyIsSpace with
  | '2' :: '.' :: rest =>
    (match rest.dropWhile pyIsSpace with
     | a :: ')' :: _ => a = 'a' || a = 'A'
     | _ => false)
  | _ => false

/-- `re.search(r"^\s*(?:2\.\s*)?b\)", ln, IGNORECASE)` viewed as a predicate:
the optional `2.` prefix is tried first; on failure the engine retries
without it (which can only succeed when the text did not start with `2`). -/
def isMarkerB (ln : Str) : Bool :=
  let tryB : Str → Bool := fun r =>
    match r with
    | b :: ')' :: _ => b = 'b' || b = 'B'
    | _ => false
  match ln.dropWhile pyIsSpace with
  | '2' :: '.' :: rest => tryB (rest.dropWhile pyIsSpace) || tryB ('2' :: '.' :: rest)
  | s => tryB s

/-- `re.search(r"^\s*3\.", ln, IGNORECASE)` viewed as a predicate. -/
def isMarker3 (ln : Str) : Bool :=
  match ln.dropWhile pyIsSpace with
  | '3' :: '.' :: _ => true
  | _ => false

/-- PDFScanner.py:156-166: register type and number from the fourth line of a
layout-B document.  `if int(words[-2]):` raises `ValueError` on a non-numeric
token and takes the two-token branch only for a nonzero value; the accesses
`words[-2]`, `words[-3]` can raise `IndexError`. -/
def reg_from_line3 (line3 : Str) : Except PyErr (Str × Str) :=
  let words := pySplitWs line3
  match pyNegGet words 2 with
  | none => .error .indexError
  | some w2 =>
    match pyInt w2 with
    | .error e => .error e
    | .ok n =>
      if n ≠ 0 then
        match pyNegGet words 3, pyNegGet words 1 with
        | some w3, some w1 => .ok (keepLettersUpper w3, w2 ++ ' ' :: w1)
        | _, _ => .error .indexError
      else
        match pyNegGet words 1 with
        | some w1 => .ok (keepLettersUpper w2, w1)
        | none => .error .indexError

/-- PDFScanner.py:178-182: the non-blank lines after the `2.a)` marker, up to
(excluding) the first `b)` marker line. -/
def collectUntilB : List Str → List Str
  | [] => []
  | ln :: rest =>
    if isMarkerB ln then []
    else if ln ≠ [] then ln :: collectUntilB rest
    else collectUntilB rest

/-- Index of the first list element satisfying `p`. -/
def findIdxP (p : α → Bool) : List α → Option Nat
  | [] => none
  | x :: xs => if p x then some 0 else (findIdxP p xs).map (· + 1)

/-- The four address fields merged into the result dict
(`... | addr_parts` / `**parts`; no key collisions arise). -/
def addrEntries (a : NormalizedAddress) : Dict :=
  [("street".data, a.street), ("house_number".data, a.house_number),
   ("postal_code".data, a.postal_code), ("city".data, a.city)]

/-- `extract_from_text_2nd_format` (PDFScanner.py:139).  Unlike layout A, the
line list keeps blank lines (`lines = [ln.strip() for ln in t.split("\n")]`).
The sentinel dicts at lines 185 and 207 are keyed by the *value* `reg_type`
(`{reg_type: "unexpected Format"}`).  `lines[3]` and `lines[idx_b+2]` can
raise `IndexError`; when `lines[idx_b+2]` exists, `lines[idx_b+1]` does too,
so its unreachable default is harmless. -/
def extract_from_text_2nd_format (text : Str) : Except PyErr Dict :=
  let t := normalize_text text
  let lines := (splitOnChar '\n' t).map pyStrip
  match lines[3]? with
  | none => .error .indexError
  | some line3 =>
    match reg_from_line3 line3 with
    | .error e => .error e
    | .ok rt =>
      match findIdxP isMarker2a lines with
      | none => .ok [(rt.1, "unexpected Format".data)]
      | some idx_a =>
        let company := joinWith [' '] (collectUntilB (lines.drop (idx_a + 1)))
        match findIdxP isMarkerB lines with
        | none => .ok [(rt.1, "unexpected Format".data)]
        | some idx_b =>
          match lines[idx_b + 2]? with
          | none => .error .indexError
          | some lnB2 =>
            if isMarker3 lnB2 then
              .ok [("register_type".data, rt.1), ("register_number".data, rt.2),
                   ("company_name".data, company),
                   ("city".data, pyStrip ((lines[idx_b + 1]?).getD []))]
            else
              let address := pyStrip lnB2
              .ok ([("register_type".data, rt.1), ("register_number".data, rt.2),
                    ("company_name".data, company), ("address".data, address)] ++
                   addrEntries (split_german_address (replace_umlauts (pyUpper address))))

/-- `re.sub(r"\s*(?:\n|$)", "", s)` (PDFScanner.py:127): at each position the
greedy `\s*` is tried with `\n`, then `$`.  Net effect: every newline is
deleted together with the whitespace run preceding it, and the trailing
whitespace run is deleted.  Implemented as a right fold whose flag records
whether the characters to the right were deleted whitespace up to a newline
or the end. -/
def scrubLineEnds (s : Str) : Str :=
  (s.foldr
    (fun c st =>
      if c = '\n' then (true, st.2)
      else if pyIsSpace c then (if st.1 then st else (false, c :: st.2))
      else (false, c :: st.2))
    ((true, []) : Bool × Str)).2

/-- `extract_from_text` (PDFScanner.py:94): layout A.  The line list is
filtered to non-blank lines; `lines[1]` and `words[-2]` can raise
`IndexError`; if either the `Firma:` or the `Geschäftsanschrift:` marker is
missing, the (already normalized) text is re-parsed as layout B. -/
def extract_from_text (text : Str) : Except PyErr Dict :=
  let t := normalize_text text
  let lines := ((splitOnChar '\n' t).map pyStrip).filter (fun l => l ≠ [])
  match lines[1]? with
  | none => .error .indexError
  | some line2 =>
    let words := pySplitWs line2
    match pyNegGet words 2, pyNegGet words 1 with
    | some w2, some w1 =>
      let reg_type := keepLettersUpper w2
      let reg_number := w1.filter isDigitC
      match searchFirma t with
      | none => extract_from_text_2nd_format t
      | some g =>
        let company := pyStrip g
        match searchGesch t with
        | none => extract_from_text_2nd_format t
        | some ga =>
          let address := scrubLineEnds (pyStrip ga)
          let addr := replace_umlauts (pyUpper address)
          .ok ([("register_type".data, reg_type), ("register_number".data, reg_number),
                ("company_name".data, company), ("address".data, addr)] ++
               addrEntries (split_german_address addr))
    | _, _ => .error .indexError

instance {ε α : Type} [DecidableEq ε] [DecidableEq α] : DecidableEq (Except ε α) := fun a b =>
  match a, b with
  | .error e, .error f => decidable_of_iff (e = f) (by simp)
  | .ok x, .ok y => decidable_of_iff (x = y) (by simp)
  | .error _, .ok _ => isFalse (by simp)
  | .ok _, .error _ => isFalse (by simp)

/-! ## src/bpauto/providers/northdata.py: candidate selection

JSON values are embedded as `PyVal`; numbers as rationals (the shapes the
API yields for the compared fields — postal codes and scores — are strings
and integers; `str()` is modelled on integral numbers). -/

inductive PyVal : Type
  | vStr (s : Str)
  | vNum (q : ℚ)
  | vList (items : List PyVal)
  | vDict (fields : List (Str × PyVal))
  | vNone

/-- A JSON object / Python dict. -/
abbrev Entry := List (Str × PyVal)

/-- `d.get(k)`: `None` when the key is missing. -/
def entryGet (e : Entry) (k : Str) : PyVal :=
  match e.find? (fun p => p.1 = k) with
  | some p => p.2
  | none => .vNone

/-- Python truthiness of an embedded value. -/
def pyTruthy : PyVal → Bool
  | .vStr s => !s.isEmpty
  | .vNum q => decide (q ≠ 0)
  | .vList l => !l.isEmpty
  | .vDict d => !d.isEmpty
  | .vNone => false

/-- Python `a or b` on embedded values. -/
def pyOr (a b : PyVal) : PyVal := if pyTruthy a then a else b

/-- `isinstance(v, float | int)` on embedded values. -/
def isNumVal : PyVal → Bool
  | .vNum _ => true
  | _ => false

/-- Python `str()` of an embedded value, modelled for the shapes that are
compared in the provider (strings; integral numbers such as JSON postal
codes; `None`).  A non-integral number is rendered as `num/den`, which no
claim relies on. -/
def pyStrOf : PyVal → Str
  | .vStr s => s
  | .vNone => "None".data
  | .vNum q =>
    if q.den = 1 then (toString q.num).data else (toString q.num ++ "/" ++ toString q.den).data
  | .vList _ => "[...]".data
  | .vDict _ => "{...}".data

/-- Truthiness of the optional query strings (`None` and `""` are falsy). -/
def truthyOptStr : Option Str → Bool
  | none => false
  | some s => s ≠ []

/-- `NorthDataProvider._normalise_name` (northdata.py:223):
`str(value).strip().casefold() or None`. -/
def normalise_name : PyVal → Option Str
  | .vNone => none
  | v =>
    let r := pyCasefold (pyStrip (pyStrOf v))
    if r = [] then none else some r

/-- `_float_score` (northdata.py:238): first numeric value among the keys
`score`, `confidence`, `matchScore`, else `0.0`. -/
def float_score (e : Entry) : ℚ :=
  match entryGet e ("score".data) with
  | .vNum q => q
  | _ =>
    match entryGet e ("confidence".data) with
    | .vNum q => q
    | _ =>
      match entryGet e ("matchScore".data) with
      | .vNum q => q
      | _ => 0

/-- The `_Candidate` dataclass (northdata.py:73). -/
structure Candidate where
  index : Nat
  payload : Entry
  is_exact_match : Bool
  zip_matches : Bool
  city_matches : Bool
  score : ℚ

/-- `NorthDataProvider._candidate_from_entry` (northdata.py:229). -/
def candidate_from_entry (e : Entry) (query_name : Str) (query_zip : Option Str)
    (query_city : Option Str) (index : Nat) : Candidate :=
  let raw_name := pyOr (pyOr (entryGet e ("legalName".data)) (entryGet e ("legal_name".data)))
    (entryGet e ("name".data))
  let entry_name :=
    match raw_name with
    | .vDict d => pyOr (entryGet d ("name".data)) (entryGet d ("legalName".data))
    | v => v
  let normalised_entry_name := normalise_name entry_name
  let query_name_norm := normalise_name (.vStr query_name)
  let is_exact_match :=
    match query_name_norm with
    | none => false
    | some qn => normalised_entry_name = some qn
  let address_block : Entry :=
    match entryGet e ("address".data) with
    | .vDict d => d
    | _ => []
  let entry_zip :=
    let z := pyOr (entryGet e ("postalCode".data)) (entryGet e ("zip".data))
    if pyTruthy z then z
    else pyOr (entryGet address_block ("postalCode".data)) (entryGet address_block ("zip".data))
  let zip_matches :=
    match query_zip with
    | none => false
    | some qz =>
      qz ≠ [] && pyTruthy entry_zip && (pyStrip (pyStrOf entry_zip) = pyStrip qz)
  let entry_city :=
    let c := entryGet e ("city".data)
    if pyTruthy c then c else entryGet address_block ("city".data)
  let city_matches :=
    match query_city with
    | none => false
    | some qc =>
      qc ≠ [] && pyTruthy entry_city &&
        (pyCasefold (pyStrip (pyStrOf entry_city)) = pyCasefold (pyStrip qc))
  { index := index, payload := e, is_exact_match := is_exact_match,
    zip_matches := zip_matches, city_matches := city_matches, score := float_score e }

/-- `NorthDataProvider._extract_results` (northdata.py:213): the first of the
keys `result, results, hits, data` holding a list yields its dict elements;
otherwise the raw dict itself is yielded when non-empty. -/
def extract_results (raw : Entry) : List Entry :=
  match entryGet raw ("result".data) with
  | .vList items => items.filterMap (fun v => match v with | .vDict d => some d | _ => none)
  | _ =>
    match entryGet raw ("results".data) with
    | .vList items => items.filterMap (fun v => match v with | .vDict d => some d | _ => none)
    | _ =>
      match entryGet raw ("hits".data) with
      | .vList items => items.filterMap (fun v => match v with | .vDict d => some d | _ => none)
      | _ =>
        match entryGet raw ("data".data) with
        | .vList items => items.filterMap (fun v => match v with | .vDict d => some d | _ => none)
        | _ => if raw.isEmpty then [] else [raw]

/-- The candidate list built at the top of `_best_match` (northdata.py:287). -/
def candidatesOf (raw : Entry) (name : Str) (zip_code city : Option Str) : List Candidate :=
  (pyEnumFrom 0 (extract_results raw)).map
    (fun p => candidate_from_entry p.2 name zip_code city p.1)

/-- `max(pool, key=lambda c: (c.score, -c.index))` over `best :: rest`:
Python's `max` keeps the first maximum and replaces it only on a strictly
greater key; the key is ordered lexicographically, so a later candidate wins
a tie on `score` only with a smaller `index`. -/
def pyMaxGo : Candidate → List Candidate → Candidate
  | best, [] => best
  | best, x :: xs =>
    pyMaxGo (if best.score < x.score ∨ (x.score = best.score ∧ x.index < best.index) then x else best) xs

/-- `NorthDataProvider._best_match` (northdata.py:280).  The `match pool`
with an unreachable `[]` branch stands for Python's `max` over the pool,
which the fallback rules keep non-empty. -/
def best_match (raw : Entry) (name : Str) (zip_code : Option Str) (city : Option Str) :
    Option Entry :=
  let candidates := candidatesOf raw name zip_code city
  if candidates.isEmpty then none
  else
    let cands1 :=
      if truthyOptStr city then
        let cm := candidates.filter (fun c => c.city_matches)
        if cm.isEmpty then candidates else cm
      else candidates
    let cands2 :=
      if truthyOptStr zip_code then
        let zm := cands1.filter (fun c => c.zip_matches)
        if zm.isEmpty then cands1 else zm
      else cands1
    let exact := cands2.filter (fun c => c.is_exact_match)
    let pool := if exact.isEmpty then cands2 else exact
    match pool with
    | [] => none
    | p :: ps => some (pyMaxGo p ps).payload

/-! ## src/bpauto/excel_io.py: name combination -/

/-- `str.isalnum()` on the embedded repertoire. -/
def pyIsAlnum (c : Char) : Bool :=
  isAlphaC c || isDigitC c ||
  c = 'Ä' || c = 'Ö' || c = 'Ü' || c = 'ä' || c = 'ö' || c = 'ü' || c = 'ß'

/-- `_NAME_NOISE_VALUES` (excel_io.py:42). -/
def NAME_NOISE_VALUES : List Str :=
  ["", "-", "--", "N.N", "N.N.", "NN", "N/A", "K.A", "K.A.", "KA",
   "O.A", "O.A.", "OA", "OHNE ANGABE", "KEINE ANGABE"].map String.data

/-- `_is_noise_name_part` (excel_io.py:134). -/
def is_noise_name_part (value : Str) : Bool :=
  let collapsed := (pyUpper value).filter pyIsAlnum
  let normalised := pyUpper (pyStrip value)
  NAME_NOISE_VALUES.contains collapsed || NAME_NOISE_VALUES.contains normalised

/-- `_normalise_name_part` (excel_io.py:140): whitespace-collapse
(`" ".join(value.split())`), then drop empties and noise placeholders. -/
def normalise_name_part : Option Str → Option Str
  | none => none
  | some value =>
    let collapsed := joinWith [' '] (pySplitWs value)
    if collapsed.isEmpty then none
    else if is_noise_name_part collapsed then none
    else some collapsed

/-- `_normalise_suffix_token` (excel_io.py:150): `token.upper()` with all
characters outside `[0-9A-Z]` removed. -/
def normalise_suffix_token (t : Str) : Str :=
  (pyUpper t).filter (fun c => isDigitC c || (65 ≤ c.toNat && c.toNat ≤ 90))

/-- `_VALID_SUFFIX_TOKENS` (excel_io.py:62). -/
def VALID_SUFFIX_TOKENS : List Str :=
  ["AG", "AS", "AB", "BV", "BVBA", "EG", "EK", "EV", "GBR", "GDBR", "GMBH",
   "INC", "KG", "KGA", "KGAA", "LIMITED", "LLC", "LLP", "LP", "LTD", "NV",
   "OHG", "PARTG", "PARTGMBB", "PLC", "SAS", "SARL", "SA", "SCE", "SE",
   "SPA", "SRL", "STIFTUNG", "UG", "UGHAFTUNGSBESCHRANKT"].map String.data

/-- `_VALID_SUFFIX_PHRASES` (excel_io.py:100). -/
def VALID_SUFFIX_PHRASES : List Str := ["CO KG", "CO KGAA"].map String.data

/-- `tokens[-k:]` for the last `k` tokens. -/
def lastN (k : Nat) (l : List Str) : List Str := l.drop (l.length - k)

/-- `_has_valid_suffix` (excel_io.py:154). -/
def has_valid_suffix (name : Str) : Bool :=
  if name.isEmpty then false
  else
    let tokens := ((pySplitWs name).map normalise_suffix_token).filter (fun t => !t.isEmpty)
    if tokens.isEmpty then false
    else
      let last_token := (lastN 1 tokens).flatten
      if VALID_SUFFIX_TOKENS.contains last_token then true
      else
        (decide (2 ≤ tokens.length) &&
          (VALID_SUFFIX_PHRASES.contains (joinWith [' '] (lastN 2 tokens)) ||
           VALID_SUFFIX_TOKENS.contains (lastN 2 tokens).flatten ||
           VALID_SUFFIX_PHRASES.contains (lastN 2 tokens).flatten)) ||
        (decide (3 ≤ tokens.length) &&
          (VALID_SUFFIX_PHRASES.contains (joinWith [' '] (lastN 3 tokens)) ||
           VALID_SUFFIX_TOKENS.contains (lastN 3 tokens).flatten ||
           VALID_SUFFIX_PHRASES.contains (lastN 3 tokens).flatten))

/-- Python `max(fragments, key=len)`: first fragment of maximal length. -/
def pyMaxLenGo : Str → List Str → Str
  | best, [] => best
  | best, x :: xs => pyMaxLenGo (if best.length < x.length then x else best) xs

/-- The usable fragments of `_combine_name_parts`: normalized parts that are
truthy. -/
def fragmentsOf (parts : List (Option Str)) : List Str :=
  (parts.map normalise_name_part).filterMap
    (fun o => match o with
      | some s => if s.isEmpty then none else some s
      | none => none)

/-- `_combine_name_parts` (excel_io.py:181). -/
def combine_name_parts (parts : List (Option Str)) : Option Str :=
  match fragmentsOf parts with
  | [] => none
  | [f] => some f
  | f :: fs =>
    let combined := joinWith [' '] (f :: fs)
    if has_valid_suffix combined then some combined
    else
      match (f :: fs).filter (fun x => has_valid_suffix x) with
      | [] => some (pyMaxLenGo f fs)
      | sf :: sfs => some (pyMaxLenGo sf sfs)

/-! ## Predicates used to state the claims -/

/-- The exact shape "digits, one space, one letter" named by the spec
(`"12 A"`). -/
def digitsSpaceLetterExact (s : Str) : Bool :=
  let ds := s.takeWhile isDigitC
  !ds.isEmpty &&
    (match s.drop ds.length with
     | [' ', c] => isAlphaC c
     | _ => false)

/-- Shape "digits, then one or more spaces (`' '`), then one letter, end":
a house number carrying an internal space. -/
def hasDigitsSpacesLetterForm (s : Str) : Bool :=
  let ds := s.takeWhile isDigitC
  let rest := s.drop ds.length
  let sp := rest.takeWhile (fun c => c = ' ')
  !ds.isEmpty && !sp.isEmpty &&
    (match rest.drop sp.length with
     | [c] => isAlphaC c
     | _ => false)

/-! ## Concrete inputs used by the witnesses and counterexamples -/

/-- A well-formed layout-A document. -/
def docLayoutA : Str :=
  ("Handelsregister B\nAmtsgericht Muenchen HRB 12345\n2. a) Firma: ACME GMBH\nb) Sitz: Berlin\nGeschäftsanschrift: MUSTERSTR 1, 12345 BERLIN\nmore").data

/-- A document with a parseable fourth line but no `2. a)`/`b)` markers; its
second non-blank line has two tokens, so layout A's header parse succeeds and
the missing `Firma:` marker routes it to layout B. -/
def docNoMarkers : Str :=
  ("Vereinsregister\nAmtsgericht Muenchen\nAusdruck\nAktueller Ausdruck VR 601 SE\nx").data

/-- A layout-B document whose second raw line is blank, so its fourth
non-blank line (`Zweite Zeile HRB 222 XX`) differs from `lines[3]`
(`Aktueller Ausdruck VR 601 SE`). -/
def docBlankLine : Str :=
  ("Ausdruck\n\nAmtsgericht\nAktueller Ausdruck VR 601 SE\nZweite Zeile HRB 222 XX\n2.a) Name des Vereins\nVerein e.V.\nb) Sitz\nBerlin\nMusterweg 5, 12345 Berlin\n3. x").data

/-- Candidate entry: exact name match and matching postal code, but a
non-matching city and no score. -/
def entryExactZip : Entry :=
  [("name".data, .vStr ("ACME".data)), ("postalCode".data, .vStr ("11111".data)),
   ("city".data, .vStr ("XCITY".data))]

/-- Candidate entry: wrong name and postal code, but matching city and a
higher score. -/
def entryCityHighScore : Entry :=
  [("name".data, .vStr ("OTHER".data)), ("postalCode".data, .vStr ("22222".data)),
   ("city".data, .vStr ("BCITY".data)), ("score".data, .vNum 5)]

/-- API answer holding the two candidates above. -/
def rawTwoCandidates : Entry :=
  [("results".data, .vList [.vDict entryCityHighScore, .vDict entryExactZip])]

/-- API answer without a result-list key: the raw dict itself is the only
candidate. -/
def rawSelf : Entry := [("name".data, .vStr ("Z".data))]

/-- Two concrete candidates for exercising the score ranking. -/
def candLowEarly : Candidate :=
  { index := 0, payload := rawSelf, is_exact_match := true, zip_matches := false,
    city_matches := false, score := 1 }

def candHighLate : Candidate :=
  { index := 1, payload := rawSelf, is_exact_match := false, zip_matches := false,
    city_matches := false, score := 3 }

/-! # Claim theorems -/

/-- **C1** (code bug).  On a document locating neither the `2. a)` nor a `b)`
marker, the extractor returns the one-entry dict keyed by the *extracted
register type* (here `"VR"`), not by the literal string `"register_type"`
that the spec and the caller (`PlayHandelsregister.py:1016`,
`update_info["register_type"]`) expect. -/
theorem C1_sentinel_key_is_register_type_value :
    extract_from_text docNoMarkers = .ok [("VR".data, "unexpected Format".data)] ∧
    dictGet [("VR".data, "unexpected Format".data)] ("register_type".data) = none ∧
    "VR".data ≠ "register_type".data := by
  refine ⟨by decide, by decide, by decide⟩

/-- **C2** (counterexample).  On the empty document the extractor raises
(`lines[1]` → `IndexError`) instead of returning a dictionary. -/
theorem C2_counterexample_empty_text_raises :
    extract_from_text [] = .error .indexError := by decide

/-- **C2** (amended).  The extractor returns a dictionary without raising
provided the normalized text has a second non-blank line, that line has at
least two whitespace tokens, and both layout-A markers (`Firma:` and
`Geschäftsanschrift:`) are present; on degenerate input (empty text, too few
lines or tokens) it instead raises, and the PDF-level wrapper catches the
exception. -/
theorem C2_amended_no_raise_with_layout_a_markers (text l2 w2 w1 g ga : Str)
    (h1 : ((((splitOnChar '\n' (normalize_text text)).map pyStrip).filter
      (fun l => l ≠ []))[1]?) = some l2)
    (h2 : pyNegGet (pySplitWs l2) 2 = some w2)
    (h3 : pyNegGet (pySplitWs l2) 1 = some w1)
    (h4 : searchFirma (normalize_text text) = some g)
    (h5 : searchGesch (normalize_text text) = some ga) :
    ∃ d, extract_from_text text = .ok d := by
  unfold extract_from_text
  simp only [h1, h2, h3, h4, h5]
  exact ⟨_, rfl⟩

/-- **C2** (witness): the amended theorem applies to a concrete well-formed
layout-A document. -/
theorem C2_amended_witness :
    ∃ d, extract_from_text docLayoutA = .ok d :=
  C2_amended_no_raise_with_layout_a_markers docLayoutA
    ("Amtsgericht Muenchen HRB 12345".data) ("HRB".data) ("12345".data)
    ("ACME GMBH".data) ("MUSTERSTR 1, 12345 BERLIN".data)
    (by decide) (by decide) (by decide) (by decide) (by decide)

/-- **C3** (counterexample).  Layout B takes the register line from
`lines[3]` of the *blank-inclusive* line list, not from the fourth non-blank
line: on `docBlankLine` the fourth non-blank line is
`"Zweite Zeile HRB 222 XX"`, whose claimed heuristic value is
`("HRB", "222 XX")`, yet the extractor reports register type `"VR"` (from
the raw fourth line `"Aktueller Ausdruck VR 601 SE"`). -/
theorem C3_counterexample_blank_line_shifts_header :
    ((((splitOnChar '\n' (normalize_text docBlankLine)).map pyStrip).filter
      (fun l => l ≠ []))[3]?) = some ("Zweite Zeile HRB 222 XX".data) ∧
    reg_from_line3 ("Zweite Zeile HRB 222 XX".data) = .ok ("HRB".data, "222 XX".data) ∧
    Except.map (fun d => dictGet d ("register_type".data))
      (extract_from_text_2nd_format docBlankLine) = .ok (some ("VR".data)) ∧
    ("VR".data : Str) ≠ "HRB".data := by
  refine ⟨by decide, by decide, by decide, by decide⟩

/-- **C3** (amended).  The register heuristic of layout B, applied to the
fourth whitespace-stripped line (blank lines included): when `words[-2]`
parses as a nonzero Python int, the register number is the last two tokens
joined by a space and the type is the letters of `words[-3]`; when it parses
as zero, type/number are the last two tokens; when it does not parse as an
int, a `ValueError` propagates. -/
theorem C3_amended_register_heuristic (line3 w3 w2 w1 : Str) :
    (∀ n : Int, pyNegGet (pySplitWs line3) 3 = some w3 →
      pyNegGet (pySplitWs line3) 2 = some w2 →
      pyNegGet (pySplitWs line3) 1 = some w1 →
      pyInt w2 = .ok n → n ≠ 0 →
      reg_from_line3 line3 = .ok (keepLettersUpper w3, w2 ++ ' ' :: w1)) ∧
    (pyNegGet (pySplitWs line3) 2 = some w2 →
      pyNegGet (pySplitWs line3) 1 = some w1 →
      pyInt w2 = .ok 0 →
      reg_from_line3 line3 = .ok (keepLettersUpper w2, w1)) ∧
    (∀ e, pyNegGet (pySplitWs line3) 2 = some w2 →
      pyInt w2 = .error e →
      reg_from_line3 line3 = .error e) := by
  refine ⟨?_, ?_, ?_⟩
  · intro n h3 h2 h1 hn hnz
    unfold reg_from_line3
    simp only [h2, h3, h1, hn]
    simp [hnz]
  · intro h2 h1 hn
    unfold reg_from_line3
    simp only [h2, h1, hn]
    simp
  · intro e h2 hv
    unfold reg_from_line3
    simp only [h2, hv]

/-- **C3** (witness): the nonzero two-token branch on the register line
`"Aktueller Ausdruck VR 601 SE"`. -/
theorem C3_amended_witness :
    reg_from_line3 ("Aktueller Ausdruck VR 601 SE".data) =
      .ok ("VR".data, "601 SE".data) :=
  (C3_amended_register_heuristic ("Aktueller Ausdruck VR 601 SE".data)
    ("VR".data) ("601".data) ("SE".data)).1 601
    (by decide) (by decide) (by decide) (by decide) (by decide)

/-- **C5** (counterexample).  With a query city supplied, the city filter
runs *before* the exact-name and postal-code stages: `entryExactZip` is an
exact case-insensitive name match with the exact query postal code, yet the
selector returns `entryCityHighScore`, which matches neither name nor postal
code but matches the city and has the higher score. -/
theorem C5_counterexample_city_filter_overrides :
    best_match rawTwoCandidates ("ACME".data) (some ("11111".data))
      (some ("BCITY".data)) = some entryCityHighScore ∧
    (candidate_from_entry entryExactZip ("ACME".data) (some ("11111".data))
      (some ("BCITY".data)) 1).is_exact_match = true ∧
    (candidate_from_entry entryExactZip ("ACME".data) (some ("11111".data))
      (some ("BCITY".data)) 1).zip_matches = true ∧
    (candidate_from_entry entryCityHighScore ("ACME".data) (some ("11111".data))
      (some ("BCITY".data)) 0).is_exact_match = false ∧
    (candidate_from_entry entryCityHighScore ("ACME".data) (some ("11111".data))
      (some ("BCITY".data)) 0).zip_matches = false ∧
    (candidate_from_entry entryExactZip ("ACME".data) (some ("11111".data))
      (some ("BCITY".data)) 1).score <
      (candidate_from_entry entryCityHighScore ("ACME".data) (some ("11111".data))
        (some ("BCITY".data)) 0).score ∧
    entryCityHighScore ≠ entryExactZip := by
  have h1 : (candidate_from_entry entryExactZip ("ACME".data) (some ("11111".data))
      (some ("BCITY".data)) 1).score = 0 := rfl
  have h2 : (candidate_from_entry entryCityHighScore ("ACME".data) (some ("11111".data))
      (some ("BCITY".data)) 0).score = 5 := rfl
  refine ⟨rfl, rfl, rfl, rfl, rfl, by rw [h1, h2]; norm_num, ?_⟩
  intro h
  exact absurd (congrArg List.length h) (by decide)

/-- **C7** (counterexample).  `normalize` is not idempotent: removing the
hyphen-line-break pair of `"--\n-\nA"` produces `"--\nA"`, in which a second
pass finds (and removes) a new hyphen-line-break pair. -/
theorem C7_counterexample_not_idempotent :
    normalize_text (normalize_text ("--\n-\nA".data)) ≠
      normalize_text ("--\n-\nA".data) ∧
    normalize_text ("--\n-\nA".data) = "--\nA".data ∧
    normalize_text ("--\nA".data) = "-A".data := by
  refine ⟨by decide, by decide, by decide⟩

/-- **C8** (confirmed).  The name combiner discards noise placeholders
(empty, `-`, `N.N.`, `K.A.`, `OHNE ANGABE` and case variants), returns
`none` — not the empty string — when no usable fragment remains, returns a
single usable fragment unchanged, and satisfies the two spec examples. -/
theorem C8_combine_noise_and_degenerate_cases :
    (∀ parts, fragmentsOf parts = [] → combine_name_parts parts = none) ∧
    (∀ parts f, fragmentsOf parts = [f] → combine_name_parts parts = some f) ∧
    (normalise_name_part (some []) = none ∧
      normalise_name_part (some ("-".data)) = none ∧
      normalise_name_part (some ("N.N.".data)) = none ∧
      normalise_name_part (some ("n.n.".data)) = none ∧
      normalise_name_part (some ("K.A.".data)) = none ∧
      normalise_name_part (some ("Ohne Angabe".data)) = none) ∧
    combine_name_parts [some [], some ("N.N.".data), some ("Acme GmbH".data)] =
      some ("Acme GmbH".data) ∧
    combine_name_parts [some [], some ("-".data)] = none := by
  refine ⟨?_, ?_, by decide, by decide, by decide⟩
  · intro parts h
    unfold combine_name_parts
    simp only [h]
  · intro parts f h
    unfold combine_name_parts
    simp only [h]

/-- **C8** (witness): a single usable fragment is returned unchanged. -/
theorem C8_combine_witness :
    combine_name_parts [some ("Acme GmbH".data)] = some ("Acme GmbH".data) :=
  (C8_combine_noise_and_degenerate_cases).2.1
    [some ("Acme GmbH".data)] ("Acme GmbH".data) (by decide)

/-! ### Helper lemmas: characters produced by the normalization stages -/

lemma map_eq_self_of_fixed {f : Char → Char} {s : Str} (h : ∀ c ∈ s, f c = c) :
    s.map f = s := by
  induction s with
  | nil => rfl
  | cons x xs ih =>
    rw [List.map_cons, h x (by simp), ih (fun c hc => h c (List.mem_cons.mpr (Or.inr hc)))]

/-- One rewriting step of `replaceCRLF` when the head is not a `\r\n` pair. -/
lemma replaceCRLF_cons (c2 : Char) (rest : Str)
    (hne : ∀ r, c2 = '\r' → rest = '\n' :: r → False) :
    replaceCRLF (c2 :: rest) = c2 :: replaceCRLF rest := by
  rw [replaceCRLF.eq_def]
  split
  · rename_i rest1 heq
    injection heq with h1 h2
    exact (hne rest1 h1 h2).elim
  · rename_i c3 rest3 hx heq
    injection heq with h1 h2
    rw [h1, h2]
  · rename_i heq
    exact absurd heq (by simp)

lemma mem_replaceCRLF {c : Char} : ∀ {s : Str}, c ∈ replaceCRLF s → c ∈ s := by
  intro s
  induction s using replaceCRLF.induct with
  | case1 rest ih =>
    intro h
    rw [show replaceCRLF ('\r' :: '\n' :: rest) = '\n' :: replaceCRLF rest from rfl] at h
    rcases List.mem_cons.mp h with h | h
    · simp [h]
    · simp [List.mem_cons.mpr (Or.inr (ih h))]
  | case2 c2 rest hne ih =>
    intro h
    rw [replaceCRLF_cons c2 rest hne] at h
    rcases List.mem_cons.mp h with h | h
    · simp [h]
    · simp [ih h]
  | case3 =>
    intro h
    simp [replaceCRLF] at h

lemma replaceCRLF_eq_self {s : Str} (h : ∀ c ∈ s, c ≠ '\r') : replaceCRLF s = s := by
  induction s using replaceCRLF.induct with
  | case1 rest ih => exact absurd rfl (h '\r' (by simp))
  | case2 c2 rest hne ih =>
    rw [replaceCRLF_cons c2 rest hne, ih (fun d hd => h d (List.mem_cons.mpr (Or.inr hd)))]
  | case3 => rfl

lemma mem_replaceNbsp {c : Char} {s : Str} (h : c ∈ replaceNbsp s) : c.toNat ≠ 160 := by
  rcases List.mem_map.mp h with ⟨a, _, hfa⟩
  by_cases ha : a.toNat = 160
  · rw [← hfa]
    simp [ha]
  · rw [← hfa]
    simp [ha]

lemma replaceNbsp_eq_self {s : Str} (h : ∀ c ∈ s, c.toNat ≠ 160) : replaceNbsp s = s :=
  map_eq_self_of_fixed (fun c hc => by simp [h c hc])

lemma mem_replaceCR {c : Char} {s : Str} (h : c ∈ replaceCR s) : c ≠ '\r' := by
  rcases List.mem_map.mp h with ⟨a, _, hfa⟩
  by_cases ha : a = '\r'
  · rw [← hfa]
    simp [ha]
  · rw [← hfa]
    simp [ha]

lemma replaceCR_eq_self {s : Str} (h : ∀ c ∈ s, c ≠ '\r') : replaceCR s = s :=
  map_eq_self_of_fixed (fun c hc => by simp [h c hc])

/-- One rewriting step of `removeHyphenBreaks` when no hyphenation pattern
starts at the head. -/
lemma removeHyphenBreaks_cons (c2 : Char) (rest : Str)
    (hne : ∀ c1 r1, c2 = '-' → rest = '\n' :: c1 :: r1 → False) :
    removeHyphenBreaks (c2 :: rest) = c2 :: removeHyphenBreaks rest := by
  rw [removeHyphenBreaks.eq_def]
  split
  · rename_i c1 rest1 heq
    injection heq with h1 h2
    exact (hne c1 rest1 h1 h2).elim
  · rename_i c3 rest3 hx heq
    injection heq with h1 h2
    rw [h1, h2]
  · rename_i heq
    exact absurd heq (by simp)

lemma mem_removeHyphenBreaks {c : Char} : ∀ {s : Str}, c ∈ removeHyphenBreaks s → c ∈ s := by
  intro s
  induction s using removeHyphenBreaks.induct with
  | case1 c1 rest hw ih =>
    intro h
    rw [show removeHyphenBreaks ('-' :: '\n' :: c1 :: rest) =
        removeHyphenBreaks (c1 :: rest) from by rw [removeHyphenBreaks]; simp [hw]] at h
    have := ih h
    simp only [List.mem_cons] at this ⊢
    tauto
  | case2 c1 rest hw ih =>
    intro h
    rw [show removeHyphenBreaks ('-' :: '\n' :: c1 :: rest) =
        '-' :: removeHyphenBreaks ('\n' :: c1 :: rest) from by
      rw [removeHyphenBreaks]; simp [hw]] at h
    rcases List.mem_cons.mp h with h | h
    · simp [h]
    · have := ih h
      simp only [List.mem_cons] at this ⊢
      tauto
  | case3 c2 rest hne ih =>
    intro h
    rw [removeHyphenBreaks_cons c2 rest hne] at h
    rcases List.mem_cons.mp h with h | h
    · simp [h]
    · simp [ih h]
  | case4 =>
    intro h
    simp [removeHyphenBreaks] at h

lemma mem_collapseSpacesGo {c : Char} :
    ∀ {b : Bool} {s : Str}, c ∈ collapseSpacesGo b s → c ∈ s ∨ c = ' ' := by
  intro b s
  induction s generalizing b with
  | nil => intro h; simp [collapseSpacesGo] at h
  | cons x xs ih =>
    intro h
    by_cases hx : x = ' ' ∨ x = '\t'
    · rcases b with _ | _
      · rw [show collapseSpacesGo false (x :: xs) = ' ' :: collapseSpacesGo true xs from by
          simp [collapseSpacesGo, hx]] at h
        rcases List.mem_cons.mp h with h | h
        · exact Or.inr h
        · rcases ih h with h2 | h2
          · exact Or.inl (List.mem_cons.mpr (Or.inr h2))
          · exact Or.inr h2
      · rw [show collapseSpacesGo true (x :: xs) = collapseSpacesGo true xs from by
          simp [collapseSpacesGo, hx]] at h
        rcases ih h with h2 | h2
        · exact Or.inl (List.mem_cons.mpr (Or.inr h2))
        · exact Or.inr h2
    · rw [show collapseSpacesGo b (x :: xs) = x :: collapseSpacesGo false xs from by
        simp [collapseSpacesGo, hx]] at h
      rcases List.mem_cons.mp h with h | h
      · exact Or.inl (by simp [h])
      · rcases ih h with h2 | h2
        · exact Or.inl (List.mem_cons.mpr (Or.inr h2))
        · exact Or.inr h2

lemma collapseSpacesGo_idem : ∀ (s : Str) (b : Bool),
    collapseSpacesGo b (collapseSpacesGo b s) = collapseSpacesGo b s := by
  intro s
  induction s with
  | nil => intro b; rfl
  | cons x xs ih =>
    intro b
    by_cases hx : x = ' ' ∨ x = '\t'
    · rcases b with _ | _
      · rw [show collapseSpacesGo false (x :: xs) = ' ' :: collapseSpacesGo true xs from by
          simp [collapseSpacesGo, hx]]
        rw [show collapseSpacesGo false (' ' :: collapseSpacesGo true xs) =
            ' ' :: collapseSpacesGo true (collapseSpacesGo true xs) from by
          simp [collapseSpacesGo]]
        rw [ih true]
      · rw [show collapseSpacesGo true (x :: xs) = collapseSpacesGo true xs from by
          simp [collapseSpacesGo, hx]]
        exact ih true
    · rw [show collapseSpacesGo b (x :: xs) = x :: collapseSpacesGo false xs from by
        simp [collapseSpacesGo, hx]]
      rw [show collapseSpacesGo b (x :: collapseSpacesGo false xs) =
          x :: collapseSpacesGo false (collapseSpacesGo false xs) from by
        simp [collapseSpacesGo, hx]]
      rw [ih false]

/-- The output of `normalize_text` holds no NBSP and no `\r`, and is a fixed
point of the space-collapsing stage. -/
lemma normalize_text_out_props (s : Str) :
    (∀ c ∈ normalize_text s, c.toNat ≠ 160) ∧
    (∀ c ∈ normalize_text s, c ≠ '\r') ∧
    collapseSpaces (normalize_text s) = normalize_text s := by
  by_cases hs : s = []
  · rw [hs]
    exact ⟨by simp [normalize_text], by simp [normalize_text], rfl⟩
  · rw [normalize_text, if_neg hs]
    refine ⟨?_, ?_, collapseSpacesGo_idem _ false⟩
    · intro c hc
      rcases mem_collapseSpacesGo hc with h | h
      · rcases List.mem_map.mp (mem_removeHyphenBreaks h) with ⟨a, ha, hfa⟩
        by_cases hcr : a = '\r'
        · rw [← hfa, if_pos hcr]
          decide
        · rw [← hfa, if_neg hcr]
          exact mem_replaceNbsp (mem_replaceCRLF ha)
      · rw [h]; decide
    · intro c hc
      rcases mem_collapseSpacesGo hc with h | h
      · exact mem_replaceCR (mem_removeHyphenBreaks h)
      · rw [h]; decide

/-- **C7** (amended).  `normalize` is idempotent on every input whose
first-pass output is free of removable hyphen-line-break pairs (the general
claim fails, see the counterexample): all other stages are idempotent on the
normalized output. -/
theorem C7_amended_idempotent_without_hyphen_breaks (s : Str)
    (h : removeHyphenBreaks (normalize_text s) = normalize_text s) :
    normalize_text (normalize_text s) = normalize_text s := by
  obtain ⟨hnb, hcr, hcol⟩ := normalize_text_out_props s
  by_cases ht : normalize_text s = []
  · rw [ht]
    simp [normalize_text]
  · conv_lhs => rw [normalize_text, if_neg ht]
    rw [replaceNbsp_eq_self hnb, replaceCRLF_eq_self hcr, replaceCR_eq_self hcr, h, hcol]

/-- **C7** (witness): idempotence on a concrete hyphenation-free document
line. -/
theorem C7_amended_witness :
    normalize_text (normalize_text ("Muster-  strasse 1a\r\n".data)) =
      normalize_text ("Muster-  strasse 1a\r\n".data) :=
  C7_amended_idempotent_without_hyphen_breaks ("Muster-  strasse 1a\r\n".data) (by decide)

/-! ### Helper lemmas: candidate selection -/

lemma pyMaxGo_mem : ∀ (l : List Candidate) (b : Candidate), pyMaxGo b l ∈ b :: l := by
  intro l
  induction l with
  | nil => intro b; simp [pyMaxGo]
  | cons x xs ih =>
    intro b
    rw [show pyMaxGo b (x :: xs) =
      pyMaxGo (if b.score < x.score ∨ (x.score = b.score ∧ x.index < b.index) then x else b) xs
      from rfl]
    by_cases hc : b.score < x.score ∨ (x.score = b.score ∧ x.index < b.index)
    · rw [if_pos hc]
      rcases List.mem_cons.mp (ih x) with h | h
      · exact List.mem_cons.mpr (Or.inr (by simp [h]))
      · exact List.mem_cons.mpr (Or.inr (List.mem_cons.mpr (Or.inr h)))
    · rw [if_neg hc]
      rcases List.mem_cons.mp (ih b) with h | h
      · simp [h]
      · exact List.mem_cons.mpr (Or.inr (List.mem_cons.mpr (Or.inr h)))

lemma pyMaxGo_spec : ∀ (l : List Candidate) (b : Candidate), ∀ x ∈ b :: l,
    x.score ≤ (pyMaxGo b l).score ∧
      (x.score = (pyMaxGo b l).score → (pyMaxGo b l).index ≤ x.index) := by
  intro l
  induction l with
  | nil =>
    intro b x hx
    rcases List.mem_cons.mp hx with h | h
    · subst h
      exact ⟨le_refl _, fun _ => le_refl _⟩
    · simp at h
  | cons y ys ih =>
    intro b x hx
    rw [show pyMaxGo b (y :: ys) =
      pyMaxGo (if b.score < y.score ∨ (y.score = b.score ∧ y.index < b.index) then y else b) ys
      from rfl]
    by_cases hc : b.score < y.score ∨ (y.score = b.score ∧ y.index < b.index)
    · rw [if_pos hc]
      have hQy := ih y y (List.mem_cons.mpr (Or.inl rfl))
      rcases List.mem_cons.mp hx with h | h
      · subst h
        rcases hc with hlt | ⟨hse, hsi⟩
        · refine ⟨le_trans (le_of_lt hlt) hQy.1, fun he => ?_⟩
          exact absurd (lt_of_lt_of_le hlt hQy.1) (by rw [← he]; exact lt_irrefl _)
        · refine ⟨le_of_eq_of_le hse.symm hQy.1, fun he => ?_⟩
          have h2 := hQy.2 (hse.trans he)
          omega
      · rcases List.mem_cons.mp h with h | h
        · subst h
          exact hQy
        · exact ih y x (List.mem_cons.mpr (Or.inr h))
    · rw [if_neg hc]
      have hc1 : y.score ≤ b.score := by
        by_contra hlt
        exact hc (Or.inl (lt_of_not_le hlt))
      have hc2 : y.score = b.score → b.index ≤ y.index := by
        intro hse
        by_contra hgt
        exact hc (Or.inr ⟨hse, lt_of_not_le (fun hle => hgt hle)⟩)
      have hQb := ih b b (List.mem_cons.mpr (Or.inl rfl))
      rcases List.mem_cons.mp hx with h | h
      · subst h
        exact hQb
      · rcases List.mem_cons.mp h with h | h
        · subst h
          refine ⟨le_trans hc1 hQb.1, fun he => ?_⟩
          have hbs : x.score = b.score := le_antisymm hc1 (by rw [he] at hc1 ⊢; linarith [hQb.1])
          have hbi := hc2 hbs
          have h2 := hQb.2 (hbs.symm.trans (by rw [← he]))
          omega
        · exact ih b x (List.mem_cons.mpr (Or.inr h))

lemma mem_pyEnumFrom {p : Nat × α} : ∀ {n : Nat} {l : List α}, p ∈ pyEnumFrom n l → p.2 ∈ l := by
  intro n l
  induction l generalizing n with
  | nil => intro h; simp [pyEnumFrom] at h
  | cons x xs ih =>
    intro h
    rw [show pyEnumFrom n (x :: xs) = (n, x) :: pyEnumFrom (n + 1) xs from rfl] at h
    rcases List.mem_cons.mp h with h | h
    · rw [h]
      simp
    · simp [ih h]

lemma candidatesOf_payload {c : Candidate} {raw : Entry} {name : Str} {zq cq : Option Str}
    (h : c ∈ candidatesOf raw name zq cq) : c.payload ∈ extract_results raw := by
  rcases List.mem_map.mp h with ⟨p, hp, hpc⟩
  have : c.payload = p.2 := by
    rw [← hpc]
    rfl
  rw [this]
  exact mem_pyEnumFrom hp

example (l : List Candidate) (h : l ≠ []) : l.isEmpty = false := by
  exact List.isEmpty_eq_false.mpr h

example (a : Candidate) (l : List Candidate) (p : Candidate → Bool) (h : a ∈ l) (hp : p a = true) : a ∈ l.filter p := List.mem_filter.mpr ⟨h, hp⟩

lemma ite_filter_ne_nil (l : List Candidate) (p : Candidate → Bool) (h : l ≠ []) :
    (if (l.filter p).isEmpty then l else l.filter p) ≠ [] := by
  by_cases he : (l.filter p).isEmpty = true
  · rw [if_pos he]
    exact h
  · rw [if_neg he]
    intro hc
    rw [hc] at he
    simp at he

lemma ite_filter_subset {x : Candidate} (l : List Candidate) (p : Candidate → Bool)
    (h : x ∈ (if (l.filter p).isEmpty then l else l.filter p)) : x ∈ l := by
  by_cases he : (l.filter p).isEmpty = true
  · rw [if_pos he] at h
    exact h
  · rw [if_neg he] at h
    exact (List.mem_filter.mp h).1

lemma pyEnumFrom_eq_nil {l : List α} {n : Nat} (h : pyEnumFrom n l = []) : l = [] := by
  rcases l with _ | ⟨x, xs⟩
  · rfl
  · exact absurd h (by simp [pyEnumFrom])

/-- The selector returns the payload of one of its candidates whenever any
candidate exists. -/
lemma best_match_some (raw : Entry) (name : Str) (zq cq : Option Str)
    (hne : candidatesOf raw name zq cq ≠ []) :
    ∃ c ∈ candidatesOf raw name zq cq,
      best_match raw name zq cq = some c.payload := by
  unfold best_match
  simp only [List.isEmpty_eq_false.mpr hne, Bool.false_eq_true, if_false, ite_false]
  set C := candidatesOf raw name zq cq with hC
  set cands1 := (if truthyOptStr cq = true then
      (if (C.filter (fun c => c.city_matches)).isEmpty then C
      else C.filter (fun c => c.city_matches))
    else C) with hc1
  set cands2 := (if truthyOptStr zq = true then
      (if (cands1.filter (fun c => c.zip_matches)).isEmpty then cands1
      else cands1.filter (fun c => c.zip_matches))
    else cands1) with hc2
  have h1 : cands1 ≠ [] := by
    rw [hc1]
    by_cases h : truthyOptStr cq = true
    · rw [if_pos h]
      exact ite_filter_ne_nil _ _ hne
    · rw [if_neg h]
      exact hne
  have h2 : cands2 ≠ [] := by
    rw [hc2]
    by_cases h : truthyOptStr zq = true
    · rw [if_pos h]
      exact ite_filter_ne_nil _ _ h1
    · rw [if_neg h]
      exact h1
  rcases hE : (if (cands2.filter (fun c => c.is_exact_match)).isEmpty then cands2
      else cands2.filter (fun c => c.is_exact_match)) with _ | ⟨p, ps⟩
  · exact absurd hE (ite_filter_ne_nil _ _ h2)
  · have hcpool : pyMaxGo p ps ∈ (if (cands2.filter (fun c => c.is_exact_match)).isEmpty
        then cands2 else cands2.filter (fun c => c.is_exact_match)) := by
      rw [hE]
      exact pyMaxGo_mem ps p
    have hcands2 : pyMaxGo p ps ∈ cands2 := ite_filter_subset _ _ hcpool
    have hcands1 : pyMaxGo p ps ∈ cands1 := by
      rw [hc2] at hcands2
      by_cases h : truthyOptStr zq = true
      · rw [if_pos h] at hcands2
        exact ite_filter_subset _ _ hcands2
      · rw [if_neg h] at hcands2
        exact hcands2
    have hcand : pyMaxGo p ps ∈ C := by
      rw [hc1] at hcands1
      by_cases h : truthyOptStr cq = true
      · rw [if_pos h] at hcands1
        exact ite_filter_subset _ _ hcands1
      · rw [if_neg h] at hcands1
        exact hcands1
    rw [hE]
    exact ⟨pyMaxGo p ps, hcand, rfl⟩

/-- **C5** (amended).  When no query city is supplied, exact-name and
postal-code filtering take priority over raw score ranking: whenever some
candidate is an exact case-insensitive name match with a matching postal
code, the selector returns such a candidate, regardless of higher scores
among candidates failing those filters. -/
theorem C5_amended_exact_zip_priority_without_city (raw : Entry) (name zq : Str)
    (hzq : zq ≠ []) (c0 : Candidate)
    (hc0 : c0 ∈ candidatesOf raw name (some zq) none)
    (hex : c0.is_exact_match = true) (hzip : c0.zip_matches = true) :
    ∃ c ∈ candidatesOf raw name (some zq) none,
      c.is_exact_match = true ∧ c.zip_matches = true ∧
        best_match raw name (some zq) none = some c.payload := by
  have hne : candidatesOf raw name (some zq) none ≠ [] := by
    intro h
    rw [h] at hc0
    simp at hc0
  have hzm : c0 ∈ (candidatesOf raw name (some zq) none).filter (fun c => c.zip_matches) :=
    List.mem_filter.mpr ⟨hc0, hzip⟩
  have hzmne : (candidatesOf raw name (some zq) none).filter (fun c => c.zip_matches) ≠ [] := by
    intro h
    rw [h] at hzm
    simp at hzm
  have hexmem : c0 ∈ ((candidatesOf raw name (some zq) none).filter
      (fun c => c.zip_matches)).filter (fun c => c.is_exact_match) :=
    List.mem_filter.mpr ⟨hzm, hex⟩
  unfold best_match
  simp only [List.isEmpty_eq_false.mpr hne, List.isEmpty_eq_false.mpr hzmne,
    truthyOptStr, Bool.false_eq_true, if_false, decide_eq_true_eq, ne_eq, hzq,
    not_false_eq_true, if_true, ite_true, ite_false]
  rcases hE : ((candidatesOf raw name (some zq) none).filter
      (fun c => c.zip_matches)).filter (fun c => c.is_exact_match) with _ | ⟨p, ps⟩
  · rw [hE] at hexmem
    simp at hexmem
  · rw [hE]
    simp only [List.isEmpty_cons, Bool.false_eq_true, if_false, ite_false]
    refine ⟨pyMaxGo p ps, ?_, ?_, ?_, rfl⟩
    · have hmem : pyMaxGo p ps ∈ ((candidatesOf raw name (some zq) none).filter
          (fun c => c.zip_matches)).filter (fun c => c.is_exact_match) := by
        rw [hE]
        exact pyMaxGo_mem ps p
      exact (List.mem_filter.mp ((List.mem_filter.mp hmem).1)).1
    · have hmem : pyMaxGo p ps ∈ ((candidatesOf raw name (some zq) none).filter
          (fun c => c.zip_matches)).filter (fun c => c.is_exact_match) := by
        rw [hE]
        exact pyMaxGo_mem ps p
      exact (List.mem_filter.mp hmem).2
    · have hmem : pyMaxGo p ps ∈ ((candidatesOf raw name (some zq) none).filter
          (fun c => c.zip_matches)).filter (fun c => c.is_exact_match) := by
        rw [hE]
        exact pyMaxGo_mem ps p
      exact (List.mem_filter.mp ((List.mem_filter.mp hmem).1)).2

/-- **C5** (witness): with no query city, the exact-name + postal-code
candidate `entryExactZip` is selected despite `entryCityHighScore`'s higher
score. -/
theorem C5_amended_witness :
    ∃ c ∈ candidatesOf rawTwoCandidates ("ACME".data) (some ("11111".data)) none,
      c.is_exact_match = true ∧ c.zip_matches = true ∧
        best_match rawTwoCandidates ("ACME".data) (some ("11111".data)) none =
          some c.payload :=
  C5_amended_exact_zip_priority_without_city rawTwoCandidates ("ACME".data)
    ("11111".data) (by decide)
    (candidate_from_entry entryExactZip ("ACME".data) (some ("11111".data)) none 1)
    (List.mem_cons.mpr (Or.inr (List.mem_cons.mpr (Or.inl rfl)))) rfl rfl

lemma float_score_default (e : Entry)
    (h1 : isNumVal (entryGet e ("score".data)) = false)
    (h2 : isNumVal (entryGet e ("confidence".data)) = false)
    (h3 : isNumVal (entryGet e ("matchScore".data)) = false) :
    float_score e = 0 := by
  unfold float_score
  cases hv1 : entryGet e ("score".data) <;>
    cases hv2 : entryGet e ("confidence".data) <;>
      cases hv3 : entryGet e ("matchScore".data) <;>
        simp_all [isNumVal]

/-- **C6** (confirmed).  Over any non-empty pool, Python's
`max(pool, key=lambda c: (c.score, -c.index))` (the selector's final step)
returns a member of the pool holding the highest score, and among candidates
sharing that score the one with the least index, i.e. the earliest candidate
of the original enumerated list; a candidate without a numeric value under
`score`/`confidence`/`matchScore` gets score `0`. -/
theorem C6_highest_score_earliest_tie :
    (∀ (b : Candidate) (l : List Candidate),
      pyMaxGo b l ∈ b :: l ∧
      ∀ x ∈ b :: l, x.score ≤ (pyMaxGo b l).score ∧
        (x.score = (pyMaxGo b l).score → (pyMaxGo b l).index ≤ x.index)) ∧
    (∀ e : Entry, isNumVal (entryGet e ("score".data)) = false →
      isNumVal (entryGet e ("confidence".data)) = false →
      isNumVal (entryGet e ("matchScore".data)) = false →
      float_score e = 0) := by
  constructor
  · intro b l
    exact ⟨pyMaxGo_mem l b, pyMaxGo_spec l b⟩
  · intro e h1 h2 h3
    exact float_score_default e h1 h2 h3

/-- **C6** (witness): over the concrete two-candidate pool the maximum is a
pool member dominating both scores, and an entry without a score field gets
score `0`. -/
theorem C6_witness :
    pyMaxGo candLowEarly [candHighLate] ∈ candLowEarly :: [candHighLate] ∧
    candLowEarly.score ≤ (pyMaxGo candLowEarly [candHighLate]).score ∧
    float_score rawSelf = 0 := by
  obtain ⟨hall, hdef⟩ := C6_highest_score_earliest_tie
  obtain ⟨hm, hs⟩ := hall candLowEarly [candHighLate]
  exact ⟨hm, (hs candLowEarly (by simp)).1, hdef rawSelf rfl rfl rfl⟩

/-- **C10** (confirmed).  The selector never synthesizes a record: on an
empty candidate list it returns `none`, and whenever it returns a payload,
that payload is (unchanged) one of the entries produced by
`_extract_results`. -/
theorem C10_selector_returns_existing_payload (raw : Entry) (name : Str)
    (zq cq : Option Str) :
    (best_match raw name zq cq = none ↔ extract_results raw = []) ∧
    (∀ p, best_match raw name zq cq = some p → p ∈ extract_results raw) := by
  by_cases hr : extract_results raw = []
  · have hcand : candidatesOf raw name zq cq = [] := by
      unfold candidatesOf
      rw [hr]
      rfl
    have hnone : best_match raw name zq cq = none := by
      unfold best_match
      simp [hcand]
    refine ⟨⟨fun _ => hr, fun _ => hnone⟩, fun p hp => ?_⟩
    rw [hnone] at hp
    exact absurd hp (by simp)
  · have hcand : candidatesOf raw name zq cq ≠ [] := by
      intro h
      unfold candidatesOf at h
      exact hr (pyEnumFrom_eq_nil (List.map_eq_nil_iff.mp h))
    obtain ⟨c, hc, heq⟩ := best_match_some raw name zq cq hcand
    constructor
    · rw [heq]
      exact ⟨fun h => absurd h (by simp), fun h => absurd h hr⟩
    · intro p hp
      rw [heq] at hp
      injection hp with hpp
      rw [← hpp]
      exact candidatesOf_payload hc

/-- **C10** (witness): on an answer without a result list the raw dict is the
single candidate, and the selected payload is that dict unchanged. -/
theorem C10_witness :
    best_match rawSelf ("Z".data) none none = some rawSelf ∧
    rawSelf ∈ extract_results rawSelf :=
  ⟨rfl, (C10_selector_returns_existing_payload rawSelf ("Z".data) none none).2
    rawSelf rfl⟩

/-! ### Helper lemmas: takeWhile/dropWhile and character classes -/

lemma digit_not_space {c : Char} (h : isDigitC c = true) : pyIsSpace c = false := by
  simp only [isDigitC, Bool.and_eq_true, decide_eq_true_eq] at h
  simp only [pyIsSpace, Bool.or_eq_false_iff, decide_eq_false_iff_not]
  omega

lemma alpha_not_space {c : Char} (h : isAlphaC c = true) : pyIsSpace c = false := by
  simp only [isAlphaC, Bool.or_eq_true, Bool.and_eq_true, decide_eq_true_eq] at h
  simp only [pyIsSpace, Bool.or_eq_false_iff, decide_eq_false_iff_not]
  omega

lemma alpha_not_digit {c : Char} (h : isAlphaC c = true) : isDigitC c = false := by
  simp only [isAlphaC, Bool.or_eq_true, Bool.and_eq_true, decide_eq_true_eq] at h
  simp only [isDigitC, Bool.and_eq_false_iff, decide_eq_false_iff_not]
  omega

lemma takeWhile_append_cons (p : Char → Bool) (l r : Str) (x : Char)
    (hl : ∀ a ∈ l, p a = true) (hx : p x = false) :
    ((l ++ x :: r).takeWhile p) = l := by
  induction l with
  | nil => simp [List.takeWhile_cons, hx]
  | cons a as ih =>
    rw [List.cons_append, List.takeWhile_cons, hl a (by simp)]
    rw [ih (fun b hb => hl b (by simp [hb]))]
    simp

lemma dropWhile_append_cons (p : Char → Bool) (l r : Str) (x : Char)
    (hl : ∀ a ∈ l, p a = true) (hx : p x = false) :
    ((l ++ x :: r).dropWhile p) = x :: r := by
  induction l with
  | nil => simp [List.dropWhile_cons, hx]
  | cons a as ih =>
    rw [List.cons_append, List.dropWhile_cons]
    rw [hl a (by simp)]
    simp only [if_true, ite_true]
    exact ih (fun b hb => hl b (by simp [hb]))

lemma takeWhile_eq_self (p : Char → Bool) (l : Str) (h : ∀ a ∈ l, p a = true) :
    l.takeWhile p = l := by
  induction l with
  | nil => rfl
  | cons a as ih =>
    rw [List.takeWhile_cons, h a (by simp), ih (fun b hb => h b (by simp [hb]))]
    simp

lemma take_len_takeWhile (p : Char → Bool) (l : Str) :
    l.take (l.takeWhile p).length = l.takeWhile p := by
  induction l with
  | nil => rfl
  | cons a as ih =>
    rw [List.takeWhile_cons]
    by_cases hp : p a = true
    · rw [hp]
      simp only [if_true, ite_true, List.length_cons, List.take_succ_cons]
      rw [ih]
    · rw [Bool.eq_false_iff.mpr hp]
      simp

lemma drop_len_takeWhile (p : Char → Bool) (l : Str) :
    l.drop (l.takeWhile p).length = l.dropWhile p := by
  induction l with
  | nil => rfl
  | cons a as ih =>
    rw [List.takeWhile_cons, List.dropWhile_cons]
    by_cases hp : p a = true
    · rw [hp]
      simp only [if_true, ite_true, List.length_cons, List.drop_succ_cons]
      rw [ih]
    · rw [Bool.eq_false_iff.mpr hp]
      simp

lemma dropWhile_eq_self_of_head (p : Char → Bool) (l : Str)
    (h : ∀ x, l.head? = some x → p x = false) : l.dropWhile p = l := by
  cases l with
  | nil => rfl
  | cons a as =>
    rw [List.dropWhile_cons, h a rfl]
    simp

lemma pyStrip_eq_self (s : Str)
    (h1 : ∀ x, s.head? = some x → pyIsSpace x = false)
    (h2 : ∀ x, s.getLast? = some x → pyIsSpace x = false) : pyStrip s = s := by
  unfold pyStrip
  rw [dropWhile_eq_self_of_head _ _ h1]
  rw [dropWhile_eq_self_of_head _ _ (fun x hx => h2 x (by rw [← List.head?_reverse]; exact hx))]
  exact List.reverse_reverse s

lemma reMatchPlzCity_spec {k : Nat} {s : Str} {m : Str × Str}
    (h : reMatchPlzCity k s = some m) : m.1.length = k ∧ m.1.all isDigitC := by
  simp only [reMatchPlzCity] at h
  split at h
  · rename_i hcond
    simp only [Bool.and_eq_true, decide_eq_true_eq] at hcond
    split at h
    · rename_i g hg
      injection h with h
      rw [← h]
      exact ⟨hcond.1, hcond.2⟩
    · exact absurd h (by simp)
  · exact absurd h (by simp)

lemma rePlzCity_spec {right : Str} {m : Str × Str} (h : rePlzCity right = some m) :
    (m.1.length = 5 ∨ m.1.length = 4) ∧ m.1.all isDigitC := by
  unfold rePlzCity at h
  cases h5 : reMatchPlzCity 5 right with
  | some m5 =>
    rw [h5] at h
    injection h with h
    rw [← h]
    obtain ⟨hl, hd⟩ := reMatchPlzCity_spec h5
    exact ⟨Or.inl hl, hd⟩
  | none =>
    rw [h5] at h
    obtain ⟨hl, hd⟩ := reMatchPlzCity_spec h
    exact ⟨Or.inr hl, hd⟩

lemma hasForm_has_space {s : Str} (h : hasDigitsSpacesLetterForm s = true) : ' ' ∈ s := by
  simp only [hasDigitsSpacesLetterForm, Bool.and_eq_true, Bool.not_eq_true',
    List.isEmpty_eq_false] at h
  obtain ⟨⟨-, hsp⟩, -⟩ := h
  rcases hsp2 : ((s.drop (s.takeWhile isDigitC).length).takeWhile (fun c => c = ' '))
    with _ | ⟨a, as⟩
  · exact absurd hsp2 hsp
  · have ha : a ∈ ((s.drop (s.takeWhile isDigitC).length).takeWhile (fun c => c = ' ')) := by
      rw [hsp2]
      simp
    have haeq : a = ' ' := by
      have := List.mem_takeWhile_imp ha
      simpa using this
    rw [← haeq]
    exact List.mem_of_mem_drop (List.takeWhile_subset _ ha)

lemma fullmatch_of_hasForm {s : Str} (h : hasDigitsSpacesLetterForm s = true) :
    fullmatchDigitsWsLetter s = true := by
  simp only [hasDigitsSpacesLetterForm, Bool.and_eq_true, Bool.not_eq_true',
    List.isEmpty_eq_false] at h
  obtain ⟨⟨hds, hsp⟩, harm⟩ := h
  obtain ⟨c, hcrest, hcalpha⟩ : ∃ c,
      (s.drop (s.takeWhile isDigitC).length).drop
        ((s.drop (s.takeWhile isDigitC).length).takeWhile (fun c => c = ' ')).length = [c] ∧
      isAlphaC c = true := by
    rcases hr : (s.drop (s.takeWhile isDigitC).length).drop
        ((s.drop (s.takeWhile isDigitC).length).takeWhile (fun c => c = ' ')).length
      with _ | ⟨c, cs⟩
    · rw [hr] at harm
      simp at harm
    · rcases cs with _ | ⟨d, ds⟩
      · rw [hr] at harm
        exact ⟨c, rfl, by simpa using harm⟩
      · rw [hr] at harm
        simp at harm
  have hrest_eq : s.drop (s.takeWhile isDigitC).length =
      ((s.drop (s.takeWhile isDigitC).length).takeWhile (fun c => c = ' ')) ++ [c] := by
    conv_lhs => rw [← List.take_append_drop
      ((s.drop (s.takeWhile isDigitC).length).takeWhile (fun c => c = ' ')).length
      (s.drop (s.takeWhile isDigitC).length)]
    rw [take_len_takeWhile, hcrest]
  have hspall : ∀ a ∈ (s.drop (s.takeWhile isDigitC).length).takeWhile (fun c => c = ' '),
      pyIsSpace a = true := by
    intro a ha
    have := List.mem_takeWhile_imp ha
    simp only [decide_eq_true_eq] at this
    rw [this]
    decide
  have hws : (s.drop (s.takeWhile isDigitC).length).takeWhile pyIsSpace =
      (s.drop (s.takeWhile isDigitC).length).takeWhile (fun c => c = ' ') := by
    conv_lhs => rw [hrest_eq]
    exact takeWhile_append_cons pyIsSpace _ [] c hspall (alpha_not_space hcalpha)
  simp only [fullmatchDigitsWsLetter, Bool.and_eq_true, decide_eq_true_eq]
  rw [hws, hcrest]
  exact ⟨⟨hds, fun hnil => hsp hnil⟩, by simpa using hcalpha⟩

lemma houseNorm_no_form (h0 : Str) :
    hasDigitsSpacesLetterForm (houseNorm h0) = false := by
  unfold houseNorm
  by_cases hf : fullmatchDigitsWsLetter h0 = true
  · rw [if_pos hf]
    cases hform : hasDigitsSpacesLetterForm (h0.filter (fun c => c ≠ ' ')) with
    | false => rfl
    | true =>
      have hsp := hasForm_has_space hform
      have := List.mem_filter.mp hsp
      simp at this
  · rw [if_neg hf]
    cases hform : hasDigitsSpacesLetterForm h0 with
    | false => rfl
    | true => exact absurd (fullmatch_of_hasForm hform) hf

/-- **C9** (confirmed).  For every input string, the returned
NormalizedAddress satisfies the invariant: postal_code is the empty string
or a sequence of 4 or 5 digits, and house_number never has the shape
"digits, internal space(s), single letter". -/
theorem C9_address_invariants (addr : Str) :
    ((split_german_address addr).postal_code = [] ∨
      (((split_german_address addr).postal_code.length = 4 ∨
        (split_german_address addr).postal_code.length = 5) ∧
        (split_german_address addr).postal_code.all isDigitC)) ∧
    hasDigitsSpacesLetterForm (split_german_address addr).house_number = false := by
  cases hm : rePlzCity (addrRight addr) with
  | some m =>
    have hs : split_german_address addr =
        { street := (streetHouse (addrLeft addr)).1,
          house_number := houseNorm (streetHouse (addrLeft addr)).2,
          postal_code := m.1, city := pyStrip m.2 } := by
      unfold split_german_address
      rw [hm]
    rw [hs]
    obtain ⟨hl, hd⟩ := rePlzCity_spec hm
    exact ⟨Or.inr ⟨hl.elim Or.inr Or.inl, hd⟩, houseNorm_no_form _⟩
  | none =>
    have hs : split_german_address addr =
        { street := (streetHouse (addrLeft addr)).1,
          house_number := houseNorm (streetHouse (addrLeft addr)).2,
          postal_code := [], city := addrRight addr } := by
      unfold split_german_address
      rw [hm]
    rw [hs]
    exact ⟨Or.inl rfl, houseNorm_no_form _⟩

/-! ### Helper lemmas for the address-shape theorem -/

lemma head?_mem {l : Str} {a : Char} (h : l.head? = some a) : a ∈ l := by
  cases l with
  | nil => simp at h
  | cons x xs =>
    injection h with h
    rw [← h]
    simp

lemma getLast?_mem {l : Str} {a : Char} (h : l.getLast? = some a) : a ∈ l := by
  have hr : l.reverse.head? = some a := by rw [List.head?_reverse]; exact h
  exact List.mem_reverse.mp (head?_mem hr)

lemma getLast?_append_right {l r : Str} (h : r ≠ []) : (l ++ r).getLast? = r.getLast? := by
  rw [List.getLast?_append]
  cases hr : r.getLast? with
  | none => exact absurd (List.getLast?_eq_none_iff.mp hr) h
  | some a => rfl

lemma alpha_ne_comma {c : Char} (h : isAlphaC c = true) : c ≠ ',' := by
  simp only [isAlphaC, Bool.or_eq_true, Bool.and_eq_true, decide_eq_true_eq] at h
  intro hc
  rw [hc] at h
  revert h
  decide

lemma pyStrip_append_space {street : Str} (h1 : street ≠ [])
    (h2 : ∀ c ∈ street, pyIsSpace c = false) : pyStrip (street ++ [' ']) = street := by
  unfold pyStrip
  have hin : List.dropWhile pyIsSpace (street ++ [' ']) = street ++ [' '] :=
    dropWhile_eq_self_of_head _ _ (fun x hx => by
      rw [List.head?_append_of_ne_nil _ h1] at hx
      exact h2 x (head?_mem hx))
  rw [hin, List.reverse_append]
  rw [show ([' '] : Str).reverse ++ street.reverse = ' ' :: street.reverse from rfl]
  rw [List.dropWhile_cons]
  rw [show pyIsSpace ' ' = true from rfl]
  simp only [if_true, ite_true]
  rw [dropWhile_eq_self_of_head _ _ (fun x hx => by
    rw [List.head?_reverse] at hx
    exact h2 x (getLast?_mem hx))]
  exact List.reverse_reverse street

lemma fullmatch_false_of_no_ws {s : Str} (h : ∀ c ∈ s, pyIsSpace c = false) :
    fullmatchDigitsWsLetter s = false := by
  cases hf : fullmatchDigitsWsLetter s with
  | false => rfl
  | true =>
    exfalso
    simp only [fullmatchDigitsWsLetter, Bool.and_eq_true, decide_eq_true_eq] at hf
    obtain ⟨⟨-, hws⟩, -⟩ := hf
    rcases hw : (s.drop (s.takeWhile isDigitC).length).takeWhile pyIsSpace with _ | ⟨a, as⟩
    · exact hws hw
    · have ha : a ∈ (s.drop (s.takeWhile isDigitC).length).takeWhile pyIsSpace := by
        rw [hw]; simp
      have hsp : pyIsSpace a = true := List.mem_takeWhile_imp ha
      have hmem : a ∈ s := List.mem_of_mem_drop (List.takeWhile_subset _ ha)
      rw [h a hmem] at hsp
      exact absurd hsp (by simp)

lemma exact_has_space {s : Str} (h : digitsSpaceLetterExact s = true) : ' ' ∈ s := by
  simp only [digitsSpaceLetterExact, Bool.and_eq_true, Bool.not_eq_true',
    List.isEmpty_eq_false] at h
  obtain ⟨-, harm⟩ := h
  rcases hr : s.drop (s.takeWhile isDigitC).length with _ | ⟨a, as⟩
  · rw [hr] at harm
    simp at harm
  · rcases as with _ | ⟨b, bs⟩
    · rw [hr] at harm
      simp at harm
    · rcases bs with _ | ⟨e, es⟩
      · rw [hr] at harm
        have ha : a = ' ' := by
          by_contra hne
          simp [hne] at harm
        rw [← ha]
        exact List.mem_of_mem_drop (by rw [hr]; simp)
      · rw [hr] at harm
        simp at harm

lemma exact_implies_fullmatch {s : Str} (h : digitsSpaceLetterExact s = true) :
    fullmatchDigitsWsLetter s = true := by
  simp only [digitsSpaceLetterExact, Bool.and_eq_true, Bool.not_eq_true',
    List.isEmpty_eq_false] at h
  obtain ⟨hds, harm⟩ := h
  obtain ⟨c, hr, hcal⟩ : ∃ c, s.drop (s.takeWhile isDigitC).length = [' ', c] ∧
      isAlphaC c = true := by
    rcases hr : s.drop (s.takeWhile isDigitC).length with _ | ⟨a, as⟩
    · rw [hr] at harm
      simp at harm
    · rcases as with _ | ⟨b, bs⟩
      · rw [hr] at harm
        simp at harm
      · rcases bs with _ | ⟨e, es⟩
        · rw [hr] at harm
          have ha : a = ' ' := by
            by_contra hne
            simp [hne] at harm
          subst ha
          exact ⟨b, rfl, by simpa using harm⟩
        · rw [hr] at harm
          simp at harm
  simp only [fullmatchDigitsWsLetter, Bool.and_eq_true, decide_eq_true_eq]
  rw [hr]
  rw [show ([' ', c] : Str).takeWhile pyIsSpace = [' '] from by
    rw [show ([' ', c] : Str) = [' '] ++ c :: [] from rfl]
    exact takeWhile_append_cons pyIsSpace [' '] [] c (by intro a ha; simp at ha; rw [ha]; rfl)
      (alpha_not_space hcal)]
  refine ⟨⟨hds, by simp⟩, ?_⟩
  rw [show (([' ', c] : Str)).drop ([' '] : Str).length = [c] from rfl]
  simpa using hcal

lemma addrPair_shape (street house rest : Str)
    (hst : ∀ c ∈ street, c ≠ ',') (hh : ∀ c ∈ house, c ≠ ',') :
    addrPair (street ++ ' ' :: house ++ ',' :: rest) = (street ++ ' ' :: house, rest) := by
  have hassoc : street ++ ' ' :: house ++ ',' :: rest =
      (street ++ ' ' :: house) ++ ',' :: rest := by simp
  have hall : ∀ a ∈ street ++ ' ' :: house, (fun c => decide (c ≠ ',')) a = true := by
    intro a ha
    rcases List.mem_append.mp ha with ha | ha
    · simp [hst a ha]
    · rcases List.mem_cons.mp ha with ha | ha
      · rw [ha]
        decide
      · simp [hh a ha]
  unfold addrPair
  rw [hassoc]
  rw [if_pos (List.elem_eq_true_of_mem (by simp : (',' : Char) ∈ (street ++ ' ' :: house) ++ ',' :: rest))]
  rw [takeWhile_append_cons _ _ _ _ hall (by decide)]
  rw [dropWhile_append_cons _ _ _ _ hall (by decide)]
  rfl

lemma streetHouse_shape (street house : Str) (hst1 : street ≠ [])
    (hstA : ∀ c ∈ street, isAlphaC c = true)
    (hh1 : house ≠ []) (hhd : ∀ x, house.head? = some x → isDigitC x = true)
    (hhl : ∀ x, house.getLast? = some x → pyIsSpace x = false) :
    streetHouse (street ++ ' ' :: house) = (street, house) := by
  obtain ⟨hd, tl, rfl⟩ := List.exists_cons_of_ne_nil hh1
  have hdd : isDigitC hd = true := hhd hd rfl
  have hassoc : street ++ ' ' :: hd :: tl = (street ++ [' ']) ++ hd :: tl := by simp
  have hany : (street ++ ' ' :: hd :: tl).any isDigitC = true :=
    List.any_eq_true.mpr ⟨hd, by simp, hdd⟩
  have htw : (street ++ ' ' :: hd :: tl).takeWhile (fun c => !isDigitC c) = street ++ [' '] := by
    rw [hassoc]
    refine takeWhile_append_cons _ _ _ _ ?_ (by simp [hdd])
    intro a ha
    rcases List.mem_append.mp ha with ha | ha
    · simp [alpha_not_digit (hstA a ha)]
    · rcases List.mem_cons.mp ha with ha | ha
      · rw [ha]
        decide
      · simp at ha
  unfold streetHouse
  rw [if_pos hany, htw]
  rw [show street ++ ' ' :: hd :: tl = (street ++ [' ']) ++ hd :: tl from hassoc]
  rw [List.take_left, List.drop_left]
  rw [pyStrip_append_space hst1 (fun c hc => alpha_not_space (hstA c hc))]
  rw [pyStrip_eq_self (hd :: tl) (fun x hx => by
      injection hx with hx
      rw [← hx]
      exact digit_not_space hdd)
    (fun x hx => hhl x hx)]

lemma matchWsThenAny_space_city (city : Str) (hci1 : city ≠ [])
    (hcih : ∀ x, city.head? = some x → pyIsSpace x = false)
    (hcin : ∀ c ∈ city, c ≠ '\n') :
    matchWsThenAny (' ' :: city) = some city := by
  obtain ⟨y, yt, rfl⟩ := List.exists_cons_of_ne_nil hci1
  have hy : pyIsSpace y = false := hcih y rfl
  have htw : (' ' :: y :: yt).takeWhile pyIsSpace = [' '] := by
    rw [List.takeWhile_cons]
    rw [show pyIsSpace ' ' = true from rfl]
    simp only [if_true, ite_true]
    rw [List.takeWhile_cons, hy]
    simp
  simp only [matchWsThenAny]
  rw [htw]
  rw [show (([' '] : Str)).length = 1 from rfl]
  rw [show (' ' :: y :: yt).drop 1 = y :: yt from rfl]
  rw [if_neg (by simp : ¬(([' '] : Str) = []))]
  rw [if_pos (by simp : (y :: yt : Str) ≠ [])]
  rw [takeWhile_eq_self _ _ (fun a ha => by simp [hcin a ha])]

lemma rePlz_shape (code city : Str) (hc1 : code.length = 5)
    (hc2 : ∀ c ∈ code, isDigitC c = true)
    (hci1 : city ≠ []) (hcih : ∀ x, city.head? = some x → pyIsSpace x = false)
    (hcin : ∀ c ∈ city, c ≠ '\n') :
    rePlzCity (code ++ ' ' :: city) = some (code, city) := by
  have hcode_ne : code ≠ [] := by
    intro h
    rw [h] at hc1
    simp at hc1
  have h5 : reMatchPlzCity 5 (code ++ ' ' :: city) = some (code, city) := by
    simp only [reMatchPlzCity]
    rw [dropWhile_eq_self_of_head _ _ (fun x hx => by
      rw [List.head?_append_of_ne_nil _ hcode_ne] at hx
      exact digit_not_space (hc2 x (head?_mem hx)))]
    rw [List.take_left' hc1, List.drop_left' hc1]
    rw [if_pos (by simp [hc1, List.all_eq_true]; intro c hc; exact hc2 c hc)]
    rw [matchWsThenAny_space_city city hci1 hcih hcin]
  unfold rePlzCity
  rw [h5]

/-- **C4** (confirmed).  For every address of the shape
`<letters-only street> <house number>, <5-digit code> <city>` (the house
number starting with a digit, free of commas and of trailing whitespace and
either space-free or of the exact shape digits-space-letter; the city free
of line breaks and of surrounding whitespace), `split_address` returns the
street, the house number (its space removed in the digits-space-letter
case), the 5-digit postal code and the city. -/
theorem C4_split_address_shape (street house code city : Str)
    (hst1 : street ≠ []) (hstA : ∀ c ∈ street, isAlphaC c = true)
    (hh1 : house ≠ []) (hhd : ∀ x, house.head? = some x → isDigitC x = true)
    (hhc : ∀ c ∈ house, c ≠ ',')
    (hhl : ∀ x, house.getLast? = some x → pyIsSpace x = false)
    (hhw : (∀ c ∈ house, pyIsSpace c = false) ∨ digitsSpaceLetterExact house = true)
    (hc1 : code.length = 5) (hc2 : ∀ c ∈ code, isDigitC c = true)
    (hci1 : city ≠ []) (hcih : ∀ x, city.head? = some x → pyIsSpace x = false)
    (hcil : ∀ x, city.getLast? = some x → pyIsSpace x = false)
    (hcin : ∀ c ∈ city, c ≠ '\n') :
    split_german_address (street ++ ' ' :: house ++ ',' :: ' ' :: (code ++ ' ' :: city)) =
      { street := street,
        house_number := if digitsSpaceLetterExact house then
          house.filter (fun c => c ≠ ' ') else house,
        postal_code := code, city := city } := by
  have hcode_ne : code ≠ [] := by
    intro h
    rw [h] at hc1
    simp at hc1
  have hpair : addrPair (street ++ ' ' :: house ++ ',' :: ' ' :: (code ++ ' ' :: city)) =
      (street ++ ' ' :: house, ' ' :: (code ++ ' ' :: city)) :=
    addrPair_shape street house (' ' :: (code ++ ' ' :: city))
      (fun c hc => alpha_ne_comma (hstA c hc)) hhc
  have hleft : addrLeft (street ++ ' ' :: house ++ ',' :: ' ' :: (code ++ ' ' :: city)) =
      street ++ ' ' :: house := by
    unfold addrLeft
    rw [hpair]
    refine pyStrip_eq_self _ (fun x hx => ?_) (fun x hx => ?_)
    · rw [List.head?_append_of_ne_nil _ hst1] at hx
      exact alpha_not_space (hstA x (head?_mem hx))
    · rw [show street ++ ' ' :: house = (street ++ [' ']) ++ house from by simp] at hx
      rw [getLast?_append_right hh1] at hx
      exact hhl x hx
  have hright : addrRight (street ++ ' ' :: house ++ ',' :: ' ' :: (code ++ ' ' :: city)) =
      code ++ ' ' :: city := by
    unfold addrRight
    rw [hpair]
    show pyStrip (' ' :: (code ++ ' ' :: city)) = code ++ ' ' :: city
    unfold pyStrip
    rw [List.dropWhile_cons]
    rw [show pyIsSpace ' ' = true from rfl]
    simp only [if_true, ite_true]
    have hinner : List.dropWhile pyIsSpace (code ++ ' ' :: city) = code ++ ' ' :: city :=
      dropWhile_eq_self_of_head _ _ (fun x hx => by
        rw [List.head?_append_of_ne_nil _ hcode_ne] at hx
        exact digit_not_space (hc2 x (head?_mem hx)))
    rw [hinner]
    have houter : List.dropWhile pyIsSpace (code ++ ' ' :: city).reverse =
        (code ++ ' ' :: city).reverse :=
      dropWhile_eq_self_of_head _ _ (fun x hx => by
        rw [List.head?_reverse] at hx
        rw [show code ++ ' ' :: city = (code ++ [' ']) ++ city from by simp] at hx
        rw [getLast?_append_right hci1] at hx
        exact hcil x hx)
    rw [houter, List.reverse_reverse]
  have hsh : streetHouse (street ++ ' ' :: house) = (street, house) :=
    streetHouse_shape street house hst1 hstA hh1 hhd hhl
  have hre : rePlzCity (code ++ ' ' :: city) = some (code, city) :=
    rePlz_shape code city hc1 hc2 hci1 hcih hcin
  have hcity : pyStrip city = city := pyStrip_eq_self city hcih hcil
  have hs : split_german_address
      (street ++ ' ' :: house ++ ',' :: ' ' :: (code ++ ' ' :: city)) =
      { street := (streetHouse (addrLeft
          (street ++ ' ' :: house ++ ',' :: ' ' :: (code ++ ' ' :: city)))).1,
        house_number := houseNorm (streetHouse (addrLeft
          (street ++ ' ' :: house ++ ',' :: ' ' :: (code ++ ' ' :: city)))).2,
        postal_code := code, city := pyStrip city } := by
    unfold split_german_address
    rw [hright, hre]
  have hs1 : (streetHouse (addrLeft
      (street ++ ' ' :: house ++ ',' :: ' ' :: (code ++ ' ' :: city)))).1 = street := by
    rw [hleft, hsh]
  have hs2 : (streetHouse (addrLeft
      (street ++ ' ' :: house ++ ',' :: ' ' :: (code ++ ' ' :: city)))).2 = house := by
    rw [hleft, hsh]
  rw [hs, hs1, hs2, hcity]
  unfold houseNorm
  rcases hhw with hnw | hex
  · have hfm : fullmatchDigitsWsLetter house = false := fullmatch_false_of_no_ws hnw
    have hde : digitsSpaceLetterExact house = false := by
      cases hde : digitsSpaceLetterExact house with
      | false => rfl
      | true =>
        have := hnw ' ' (exact_has_space hde)
        exact absurd this (by simp [pyIsSpace])
    rw [hfm, hde]
  · rw [exact_implies_fullmatch hex, hex]

/-- **C4** (witness): the space-normalized spec example
`"MUSTERSTR 12 A, 80331 MUENCHEN"`. -/
theorem C4_split_address_witness :
    split_german_address ("MUSTERSTR 12 A, 80331 MUENCHEN".data) =
      { street := "MUSTERSTR".data, house_number := "12A".data,
        postal_code := "80331".data, city := "MUENCHEN".data } := by
  have h := C4_split_address_shape ("MUSTERSTR".data) ("12 A".data) ("80331".data)
    ("MUENCHEN".data)
    (by decide) (by decide) (by decide) (by decide) (by decide) (by decide)
    (Or.inr (by decide)) (by decide) (by decide) (by decide) (by decide) (by decide)
    (by decide)
  rw [show ("MUSTERSTR 12 A, 80331 MUENCHEN".data) =
    "MUSTERSTR".data ++ ' ' :: "12 A".data ++
      ',' :: ' ' :: ("80331".data ++ ' ' :: "MUENCHEN".data) from by decide]
  rw [h]
  decide
